import Mathlib

/-!
# A shallow embedding of the maplab server node core

The repository ships only the declarations of `MaplabServerNode`
(`maplab-server-node.h`); the member-function bodies live outside the
sources at hand.  Following the specification document, the definitions
below model the server's data model and its operations: the submap
processing queue, the ingest pipeline, the single-threaded merge loop,
the mission blacklist, the robot registry and the map-lookup service.
Every definition that stands in for a missing member function carries a
doc comment starting with `Modelled from the spec:`.
-/

set_option autoImplicit false

namespace MaplabServer

/-- Modelled from the spec: `aslam::Transformation` is a rigid 3-D
transform.  The server core uses only composition, inversion and the
action on points, so we model transforms by the executable group of
rigid motions of the integer line: a reflection part `rot` (±1 for
genuine motions) and a translation part `trans`. -/
structure Transformation where
  rot : ℤ
  trans : ℤ
deriving DecidableEq

instance : Mul Transformation :=
  ⟨fun x y => ⟨x.rot * y.rot, x.rot * y.trans + x.trans⟩⟩

instance : One Transformation := ⟨⟨1, 0⟩⟩

instance : Inv Transformation :=
  ⟨fun x => ⟨x.rot, -(x.rot * x.trans)⟩⟩

/-- The action of a transform on a point (`Eigen::Vector3d` in the
source is modelled by a scalar coordinate). -/
def Transformation.apply (T : Transformation) (p : ℤ) : ℤ :=
  T.rot * p + T.trans

abbrev MissionId := String
abbrev SensorId := Nat

/-- Association-list lookup; the first binding of the key wins, like a
`std::map` / `std::unordered_map` access. -/
def alookup {κ α : Type} [DecidableEq κ] : List (κ × α) → κ → Option α
  | [], _ => none
  | (k, v) :: rest, key => if k = key then some v else alookup rest key

/-- Association-list update: replace the first binding of the key, or
append a fresh binding (`operator[]` assignment). -/
def aset {κ α : Type} [DecidableEq κ] : List (κ × α) → κ → α → List (κ × α)
  | [], key, v => [(key, v)]
  | (k, w) :: rest, key, v =>
      if k = key then (k, v) :: rest else (k, w) :: aset rest key v

/-- Association-list erase (`map.erase(key)`): drops every binding of
the key. -/
def aerase {κ α : Type} [DecidableEq κ] (l : List (κ × α)) (key : κ) :
    List (κ × α) :=
  l.filter (fun p => p.1 ≠ key)

/-- Association-list insert that never overwrites an existing binding
(`map.insert(...)` / `emplace` semantics of the C++ containers). -/
def ainsertIfAbsent {κ α : Type} [DecidableEq κ] (l : List (κ × α)) (key : κ)
    (v : α) : List (κ × α) :=
  if (alookup l key).isSome then l else (key, v) :: l

/-- Keep one copy of every element (the last one), preserving order. -/
def dedupKeys {α : Type} [DecidableEq α] : List α → List α
  | [] => []
  | a :: rest => if a ∈ rest then dedupKeys rest else a :: dedupKeys rest

/-- Modelled from the spec: a vertex of a loaded (sub)map exposes
`(timestamp_ns, T_G_B, T_M_B, T_G_M)` (§6, "Submap on disk"). -/
structure SubmapVertex where
  timestamp_ns : Int
  T_G_B : Transformation
  T_M_B : Transformation
  T_G_M : Transformation
deriving DecidableEq

/-- Modelled from the spec: the per-mission contents of a map — the
mission id, the sensor table (sensor id mapped to its extrinsic
`T_B_S`) and the ordered vertices. -/
structure MissionData where
  mission_id : MissionId
  sensors : List (SensorId × Transformation)
  vertices : List SubmapVertex
deriving DecidableEq

/-- Modelled from the spec: a `vi_map::VIMap` held by the map manager,
reduced to the accessors the server core needs — its missions. -/
abbrev VIMap := List MissionData

/-- The `SubmapProcess` record of `maplab-server-node.h` (one record per
submap in flight; the per-record mutex is dropped in the sequential
embedding). -/
structure SubmapProcess where
  robot_name : String
  path : String
  is_loaded : Bool := false
  map_key : String := ""
  map_hash : Nat
  is_processed : Bool := false
  is_merged : Bool := false
deriving DecidableEq

/-- The `RobotMissionInformation` struct of `maplab-server-node.h`:
mission ids (most recent first) and the timestamp-keyed odometry-anchor
transforms of the ingested submaps. -/
structure RobotMissionInformation where
  mission_ids : List MissionId := []
  T_M_B_submaps_input : List (Int × Transformation) := []
  T_G_M_submaps_input : List (Int × Transformation) := []
deriving DecidableEq

/-- The mutable state of `MaplabServerNode`, with the map manager, the
submap processing queue, the robot registry (forward and reverse) and
the mission blacklist.  `last_ingested` is a ghost field recording, per
robot, the mission id of the most recently ingested submap; it backs the
registry invariant of the spec (§3, RobotMissionInformation). -/
structure ServerState where
  map_store : List (String × VIMap) := []
  submap_processing_queue : List SubmapProcess := []
  robot_to_mission_id_map : List (String × RobotMissionInformation) := []
  mission_id_to_robot_map : List (MissionId × String) := []
  blacklisted_missions : List (MissionId × String) := []
  last_ingested : List (String × MissionId) := []
deriving DecidableEq

/-- `kMergedMapKey` of `maplab-server-node.h`. -/
def kMergedMapKey : String := "merged_map"

/-- Modelled from the spec: the stable unique identifier derived from
the submap path (§3, `map_hash`); a plain radix fold over the path's
characters. -/
def mapHash (path : String) : Nat :=
  path.data.foldl (fun h c => h * 1114113 + (c.toNat + 1)) 0

/-- The binary digits of a number as characters; `fuel` bounds the
recursion depth so that the definition is structural. -/
def natBinChars : Nat → Nat → List Char
  | 0, _ => []
  | fuel + 1, n => if n = 0 then [] else
      natBinChars fuel (n / 2) ++ [if n % 2 = 1 then '1' else '0']

/-- The map-manager key a loaded submap is stored under, derived from
its hash (§4.2a, "a fresh key derived from map_hash"). -/
def submapKeyOfHash (h : Nat) : String :=
  String.mk ('s' :: natBinChars h h)

/-- Is this mission id blacklisted? -/
def missionBlacklisted (bl : List (MissionId × String)) (m : MissionId) : Bool :=
  (alookup bl m).isSome

/-- Modelled from the spec: ingest admission (§4.2 steps 1–2).  Computes
`map_hash` from the path; a record with the same hash already in the
queue is a duplicate notification and is rejected, leaving the state
unchanged; otherwise a fresh record with all stage flags false is
appended to the tail of the queue. -/
def loadAndProcessSubmap (s : ServerState) (robot_name path : String) :
    Bool × ServerState :=
  let h := mapHash path
  if (s.submap_processing_queue.map (fun r => r.map_hash)).contains h then
    (false, s)
  else
    (true, { s with submap_processing_queue :=
        s.submap_processing_queue ++
          [{ robot_name := robot_name, path := path, map_hash := h }] })

/-- Remove the record with the given hash from the queue. -/
def removeByHash (q : List SubmapProcess) (h : Nat) : List SubmapProcess :=
  q.filter (fun r => r.map_hash ≠ h)

/-- Prepend a mission id to the robot's mission list exactly when it
differs from the current front (§3, `mission_ids`). -/
def prependMissionIfNew (info : RobotMissionInformation) (m : MissionId) :
    RobotMissionInformation :=
  if info.mission_ids.head? = some m then info
  else { info with mission_ids := m :: info.mission_ids }

/-- Insert an odometry anchor; an existing entry at the same timestamp
is never rewritten (§3, "entries are append-only"). -/
def insertAnchorIfAbsent (l : List (Int × Transformation))
    (t : Int) (T : Transformation) : List (Int × Transformation) :=
  if (alookup l t).isSome then l else (t, T) :: l

/-- Record the latest unoptimized pose of the submap in the robot's
registry entry (§4.2c): the last vertex's `(timestamp, T_M_B)` and its
associated `T_G_M`. -/
def extractLatestUnoptimizedPose (info : RobotMissionInformation)
    (data : MissionData) : RobotMissionInformation :=
  match data.vertices.getLast? with
  | none => info
  | some v =>
      { info with
        T_M_B_submaps_input :=
          insertAnchorIfAbsent info.T_M_B_submaps_input v.timestamp_ns v.T_M_B
        T_G_M_submaps_input :=
          insertAnchorIfAbsent info.T_G_M_submaps_input v.timestamp_ns v.T_G_M }

/-- Modelled from the spec: the ingest-pool task (§4.2 a–d up to the
load stage).  `fs` models the shared filesystem the robots write
submaps to.  The task finds its not-yet-loaded record by hash; a failed
load removes the record; a blacklisted mission id drops the submap at
ingest (map erased, record removed); otherwise the submap is stored
under a fresh key, the robot registry and the reverse index are
updated, the odometry anchors are recorded, and the record gets
`is_loaded := true` together with its `map_key`. -/
def loadSubmapTask (fs : String → Option MissionData) (s : ServerState)
    (h : Nat) : ServerState :=
  match s.submap_processing_queue.find?
      (fun r => r.map_hash = h && !r.is_loaded) with
  | none => s
  | some rec =>
    match fs rec.path with
    | none =>
        { s with submap_processing_queue :=
            removeByHash s.submap_processing_queue h }
    | some data =>
      if missionBlacklisted s.blacklisted_missions data.mission_id then
        { s with submap_processing_queue :=
            removeByHash s.submap_processing_queue h }
      else
        let key := submapKeyOfHash h
        let info0 := (alookup s.robot_to_mission_id_map rec.robot_name).getD {}
        let info1 := prependMissionIfNew info0 data.mission_id
        let info2 := extractLatestUnoptimizedPose info1 data
        { s with
          map_store := aset s.map_store key [data]
          robot_to_mission_id_map :=
            aset s.robot_to_mission_id_map rec.robot_name info2
          mission_id_to_robot_map :=
            aset s.mission_id_to_robot_map data.mission_id rec.robot_name
          last_ingested := aset s.last_ingested rec.robot_name data.mission_id
          submap_processing_queue := s.submap_processing_queue.map
            (fun r => if r.map_hash = h then
              { r with is_loaded := true, map_key := key } else r) }

/-- Modelled from the spec: the submap-command stage (§4.2d).  The
commands themselves run in the external Command Runner and are opaque
to the core; the record of a loaded submap is marked
`is_processed := true`. -/
def runSubmapProcessingCommands (s : ServerState) (h : Nat) : ServerState :=
  { s with submap_processing_queue := s.submap_processing_queue.map
              (fun r => if r.map_hash = h && r.is_loaded then
                { r with is_processed := true } else r) }

/-- Merge one mission of a submap into a map: vertices are appended to
an existing mission with the same id (unknown sensors added), a new
mission is appended otherwise. -/
def mergeMissionInto : VIMap → MissionData → VIMap
  | [], md => [md]
  | e :: rest, md =>
      if e.mission_id = md.mission_id then
        { e with
          vertices := e.vertices ++ md.vertices
          sensors := e.sensors ++
            md.sensors.filter (fun p => (alookup e.sensors p.1).isNone) } :: rest
      else e :: mergeMissionInto rest md

/-- Merge every mission of a submap into a map. -/
def mergeVIMapInto (mm sub : VIMap) : VIMap :=
  sub.foldl mergeMissionInto mm

/-- `isSubmapBlacklisted` of `maplab-server-node.h`.  Modelled from the
spec: the loaded submap under `map_key` carries a blacklisted mission. -/
def isSubmapBlacklisted (store : List (String × VIMap))
    (bl : List (MissionId × String)) (map_key : String) : Bool :=
  match alookup store map_key with
  | none => false
  | some sub => sub.any (fun md => missionBlacklisted bl md.mission_id)

/-- Modelled from the spec: transfer the submap stored under `key` into
the merged map (§4.3 step 2), creating the merged map if absent, and
release the submap's own map-store entry. -/
def transferSubmapIntoMergedMap (store : List (String × VIMap))
    (key : String) : List (String × VIMap) :=
  match alookup store key with
  | none => store
  | some sub =>
      let merged := (alookup store kMergedMapKey).getD []
      aerase (aset store kMergedMapKey (mergeVIMapInto merged sub)) key

/-- Drop the blacklisted ids from a registry entry's mission list
(§4.3 step 1, "clear per-blacklisted-mission entries"). -/
def clearBlacklistedInfo (bl : List (MissionId × String))
    (info : RobotMissionInformation) : RobotMissionInformation :=
  { info with mission_ids :=
      info.mission_ids.filter (fun m => !missionBlacklisted bl m) }

/-- Modelled from the spec: `deleteBlacklistedMissions` (§4.3 step 1).
Blacklisted missions are removed from the merged map (which is
destroyed when no mission is left), and the per-blacklisted-mission
entries of the robot registry and the reverse index are cleared.  The
blacklist itself is never shrunk. -/
def deleteBlacklistedMissions (s : ServerState) : ServerState :=
  let bl := s.blacklisted_missions
  let store' :=
    match alookup s.map_store kMergedMapKey with
    | none => s.map_store
    | some mm =>
        let mm' := mm.filter (fun md => !missionBlacklisted bl md.mission_id)
        if mm'.isEmpty then aerase s.map_store kMergedMapKey
        else aset s.map_store kMergedMapKey mm'
  let reg' := s.robot_to_mission_id_map.map
    (fun p => (p.1, clearBlacklistedInfo bl p.2))
  let rev' :=
    s.mission_id_to_robot_map.filter (fun p => !missionBlacklisted bl p.1)
  { s with map_store := store', robot_to_mission_id_map := reg',
           mission_id_to_robot_map := rev' }

/-- Modelled from the spec: the scan of `appendAvailableSubmaps`
(§4.3 step 2 together with scenario 3's pre-merge filter).  Starting at
the head, records are consumed while `is_processed` holds: a record
whose loaded submap carries a blacklisted mission is discarded (map
erased, record popped), every other record's submap is transferred into
the merged map and the record, marked `is_merged := true`, is popped.
The scan stops at the first non-processed record; everything from there
on stays in the queue.  Returns the new map store, the remaining queue
and the merged records in queue order. -/
def appendLoop (bl : List (MissionId × String)) :
    List (String × VIMap) → List SubmapProcess →
      List (String × VIMap) × List SubmapProcess × List SubmapProcess
  | store, [] => (store, [], [])
  | store, rec :: rest =>
      if rec.is_processed then
        if isSubmapBlacklisted store bl rec.map_key then
          appendLoop bl (aerase store rec.map_key) rest
        else
          let res := appendLoop bl
            (transferSubmapIntoMergedMap store rec.map_key) rest
          (res.1, res.2.1, { rec with is_merged := true } :: res.2.2)
      else (store, rec :: rest, [])

/-- `appendAvailableSubmaps` of `maplab-server-node.h`, on a state. -/
def appendAvailableSubmaps (s : ServerState) :
    ServerState × List SubmapProcess :=
  let res := appendLoop s.blacklisted_missions s.map_store
    s.submap_processing_queue
  ({ s with map_store := res.1, submap_processing_queue := res.2.1 }, res.2.2)

/-- The merged map of a state (empty when absent). -/
def mergedMapOf (s : ServerState) : VIMap :=
  (alookup s.map_store kMergedMapKey).getD []

/-- All vertices of the merged map. -/
def mergedMapVertices (s : ServerState) : List SubmapVertex :=
  (mergedMapOf s).foldr (fun md acc => md.vertices ++ acc) []

/-- The vertices the merged map holds for one mission. -/
def verticesOfMission (s : ServerState) (m : MissionId) : List SubmapVertex :=
  (mergedMapOf s).foldr
    (fun md acc => if md.mission_id = m then md.vertices ++ acc else acc) []

/-- The payload of the pose-correction publisher callback
(`registerPoseCorrectionPublisherCallback` of `maplab-server-node.h`). -/
structure PoseCorrection where
  timestamp_ns : Int
  robot_name : String
  T_M_B_old : Transformation
  T_G_M_old : Transformation
  T_G_B_new : Transformation
  T_B_old_B_new : Transformation
deriving DecidableEq

/-- The timestamps of the robot's odometry anchors that also appear on
a vertex of the merged map. -/
def commonTimestamps (verts : List SubmapVertex)
    (anchors : List (Int × Transformation)) : List Int :=
  (anchors.map (fun p => p.1)).filter
    (fun t => verts.any (fun v => v.timestamp_ns = t))

/-- The greatest element of a timestamp list. -/
def maxTimestamp : List Int → Option Int
  | [] => none
  | t :: rest =>
      some (match maxTimestamp rest with
        | none => t
        | some m => max t m)

/-- The least element of a timestamp list. -/
def minTimestamp (l : List Int) : Option Int :=
  (maxTimestamp (l.map (fun t => -t))).map (fun m => -m)

/-- Modelled from the spec: the correction computed for one robot
(§4.3 step 4).  At the most recent timestamp `t*` present both in the
merged map and in the robot's `T_M_B_submaps_input`, the stored input
transforms and the optimized pose from the merged map give
`T_B_old_B_new = (T_G_M_old * T_M_B_old)⁻¹ * T_G_B_new`. -/
def correctionForRobot (s : ServerState) (r : String) : Option PoseCorrection :=
  match alookup s.robot_to_mission_id_map r with
  | none => none
  | some info =>
    let verts := mergedMapVertices s
    match maxTimestamp (commonTimestamps verts info.T_M_B_submaps_input) with
    | none => none
    | some tStar =>
      match alookup info.T_M_B_submaps_input tStar,
            alookup info.T_G_M_submaps_input tStar,
            verts.find? (fun v => v.timestamp_ns = tStar) with
      | some tmb, some tgm, some v =>
          some { timestamp_ns := tStar, robot_name := r, T_M_B_old := tmb,
                 T_G_M_old := tgm, T_G_B_new := v.T_G_B,
                 T_B_old_B_new := (tgm * tmb)⁻¹ * v.T_G_B }
      | _, _, _ => none

/-- `publishMostRecentVertexPoseAndCorrection` of `maplab-server-node.h`:
the corrections emitted for the robots with new merged data. -/
def publishMostRecentVertexPoseAndCorrection (s : ServerState)
    (robots : List String) : List PoseCorrection :=
  robots.filterMap (correctionForRobot s)

/-- Modelled from the spec: one iteration of the merge loop (§4.3).
Blacklisted missions are deleted, the available submaps are appended,
the global commands run in the external Command Runner (opaque to the
core, hence identity on the modelled state), and the corrections for
the robots with new merged data are published.  Returns the new state,
the records merged this iteration and the emitted corrections. -/
def runOneMergeIteration (s : ServerState) :
    ServerState × List SubmapProcess × List PoseCorrection :=
  let s1 := deleteBlacklistedMissions s
  let res := appendAvailableSubmaps s1
  let robots := dedupKeys (res.2.map (fun r => r.robot_name))
  (res.1, res.2, publishMostRecentVertexPoseAndCorrection res.1 robots)

/-- All known mission ids: the robot registry's mission lists together
with the merged map's missions (§4.4). -/
def knownMissionIds (s : ServerState) : List MissionId :=
  (s.robot_to_mission_id_map.foldr (fun p acc => p.2.mission_ids ++ acc) []) ++
    (mergedMapOf s).map (fun md => md.mission_id)

/-- Is `pre` a prefix of the canonical string form of a mission id? -/
def strHasPre (m pre : String) : Bool :=
  pre.data.isPrefixOf m.data

/-- The known mission ids the queried string is a prefix of. -/
def matchingMissionIds (s : ServerState) (pid : String) : List MissionId :=
  dedupKeys ((knownMissionIds s).filter (fun m => strHasPre m pid))

/-- Modelled from the spec: `deleteMission` (§4.4).  A partial id
shorter than four characters is invalid; zero matches fail with "not
found", several matches fail with "ambiguous"; a unique match is
inserted into the blacklist and reported in the status message. -/
def deleteMission (s : ServerState) (pid : String) :
    Bool × String × ServerState :=
  if pid.length < 4 then
    (false, "invalid mission id, too short", s)
  else
    match matchingMissionIds s pid with
    | [] => (false, "mission not found", s)
    | [m] =>
        let bl' :=
          ainsertIfAbsent s.blacklisted_missions m "deleted by operator request"
        (true, "blacklisted mission " ++ m, { s with blacklisted_missions := bl' })
    | _ => (false, "ambiguous mission id", s)

/-- Insert every given mission id into the blacklist (existing entries
are kept). -/
def blacklistAllMissions (bl : List (MissionId × String))
    (ids : List MissionId) (robot : String) : List (MissionId × String) :=
  ids.foldl (fun b m => ainsertIfAbsent b m ("robot deleted: " ++ robot)) bl

/-- Modelled from the spec: `deleteAllRobotMissions` (§4.4): every id
in the robot's `mission_ids` is blacklisted. -/
def deleteAllRobotMissions (s : ServerState) (robot : String) :
    Bool × ServerState :=
  match alookup s.robot_to_mission_id_map robot with
  | none => (false, s)
  | some info =>
      let bl' := blacklistAllMissions s.blacklisted_missions
        info.mission_ids robot
      (true, { s with blacklisted_missions := bl' })

/-- `MapLookupStatus` of `maplab-server-node.h`. -/
inductive MapLookupStatus where
  | kSuccess
  | kNoSuchMission
  | kNoSuchSensor
  | kPoseNotAvailableYet
  | kPoseNeverAvailable
deriving DecidableEq

/-- Modelled from the spec: the timestamp tolerance of the lookup
service (§4.5 leaves the numeric value to the implementation). -/
def kLookupToleranceNs : Int := 100000000

/-- The latest vertex with timestamp at or before `t`. -/
def latestVertexAtOrBefore : List SubmapVertex → Int → Option SubmapVertex
  | [], _ => none
  | v :: rest, t =>
      match latestVertexAtOrBefore rest t with
      | none => if v.timestamp_ns ≤ t then some v else none
      | some w =>
          if v.timestamp_ns ≤ t && w.timestamp_ns < v.timestamp_ns then some v
          else some w

/-- Modelled from the spec: the body pose at the query time is
interpolated from the bracketing vertices (linear translation,
quaternion SLERP, §4.5).  Over the modelled transform group the numeric
blend is not expressible; we take the bracketing vertex closest from
below, which agrees with the spec whenever the query timestamp
coincides with a vertex timestamp. -/
def interpolatedPoseAt (verts : List SubmapVertex) (t : Int) :
    Transformation :=
  match latestVertexAtOrBefore verts t with
  | some v => v.T_G_B
  | none => ((verts.head?).map (fun v => v.T_G_B)).getD 1

/-- Modelled from the spec: `mapLookup` (§4.5).  Resolves the robot to
its latest mission, the mission in the merged map, and the sensor on
that mission; classifies the queried timestamp against the mission's
vertex range; on success transforms the sensor-frame point and the
sensor origin into the global frame. -/
def mapLookup (s : ServerState) (robot : String) (sensor : SensorId)
    (timestamp_ns : Int) (p_S : ℤ) :
    MapLookupStatus × Option ℤ × Option ℤ :=
  match alookup s.robot_to_mission_id_map robot with
  | none => (MapLookupStatus.kNoSuchMission, none, none)
  | some info =>
    match info.mission_ids.head? with
    | none => (MapLookupStatus.kNoSuchMission, none, none)
    | some m =>
      match (mergedMapOf s).find? (fun md => md.mission_id = m) with
      | none => (MapLookupStatus.kNoSuchMission, none, none)
      | some md =>
        match alookup md.sensors sensor with
        | none => (MapLookupStatus.kNoSuchSensor, none, none)
        | some T_B_S =>
          match maxTimestamp (md.vertices.map (fun v => v.timestamp_ns)) with
          | none => (MapLookupStatus.kPoseNotAvailableYet, none, none)
          | some lastTs =>
            let oldestTs := -(maxTimestamp
              (md.vertices.map (fun v => -v.timestamp_ns))).getD 0
            if lastTs < timestamp_ns - kLookupToleranceNs then
              (MapLookupStatus.kPoseNotAvailableYet, none, none)
            else if timestamp_ns < oldestTs - kLookupToleranceNs then
              (MapLookupStatus.kPoseNeverAvailable, none, none)
            else
              let T_G_B := interpolatedPoseAt md.vertices timestamp_ns
              (MapLookupStatus.kSuccess,
                some ((T_G_B * T_B_S).apply p_S),
                some ((T_G_B * T_B_S).apply 0))

/-- The externally driven operations of the server, as a sequential
interleaving of the ingest, processing, merging and query threads. -/
inductive ServerOp where
  | opLoadAndProcessSubmap (robot path : String)
  | opLoaderTask (h : Nat)
  | opProcessTask (h : Nat)
  | opMergeIteration
  | opDeleteMission (pid : String)
  | opDeleteAllRobotMissions (robot : String)
  | opMapLookup (robot : String) (sensor : SensorId) (t : Int) (p : ℤ)

/-- The state transition of each operation; `fs` is the shared
filesystem the submap producers write to. -/
def applyServerOp (fs : String → Option MissionData) (s : ServerState) :
    ServerOp → ServerState
  | .opLoadAndProcessSubmap robot path => (loadAndProcessSubmap s robot path).2
  | .opLoaderTask h => loadSubmapTask fs s h
  | .opProcessTask h => runSubmapProcessingCommands s h
  | .opMergeIteration => (runOneMergeIteration s).1
  | .opDeleteMission pid => (deleteMission s pid).2.2
  | .opDeleteAllRobotMissions robot => (deleteAllRobotMissions s robot).2
  | .opMapLookup _ _ _ _ => s

/-- Run a sequence of operations. -/
def runOps (fs : String → Option MissionData) (s : ServerState)
    (ops : List ServerOp) : ServerState :=
  ops.foldl (applyServerOp fs) s

/-- Every mission of the merged map-store entry avoids the blacklist. -/
def mergedMissionsClean (bl : List (MissionId × String))
    (store : List (String × VIMap)) : Prop :=
  ∀ md ∈ (alookup store kMergedMapKey).getD [],
    missionBlacklisted bl md.mission_id = false

/-- The maximal prefix of consecutively processed queue records — the
records the merge loop's scan visits. -/
def processedPrefix (q : List SubmapProcess) : List SubmapProcess :=
  q.takeWhile (fun r => r.is_processed)

/-- Among the visited records, those whose submap carries no
blacklisted mission: exactly the records transferred into the merged
map, in queue order. -/
def transferredRecords (bl : List (MissionId × String))
    (store : List (String × VIMap)) (q : List SubmapProcess) :
    List SubmapProcess :=
  (processedPrefix q).filter
    (fun r => !isSubmapBlacklisted store bl r.map_key)

/-- Pointwise implication of the stage flags of two records: the
second record's flags dominate the first's. -/
def flagsLe (a b : SubmapProcess) : Prop :=
  (a.is_loaded = true → b.is_loaded = true) ∧
  (a.is_processed = true → b.is_processed = true) ∧
  (a.is_merged = true → b.is_merged = true)

/-- The stage flags of a record respect the pipeline order: processed
implies loaded, merged implies processed. -/
def WellStaged (r : SubmapProcess) : Prop :=
  (r.is_processed = true → r.is_loaded = true) ∧
  (r.is_merged = true → r.is_processed = true)

/-- The timestamp key sets of the robot's two anchor maps agree (§3,
registry invariant). -/
@[reducible] def AnchorKeysAgree (info : RobotMissionInformation) : Prop :=
  info.T_M_B_submaps_input.map (fun p => p.1) =
    info.T_G_M_submaps_input.map (fun p => p.1)

/-- The front of every robot's `mission_ids` is the mission id of that
robot's most recently ingested submap (§3, registry invariant), stated
against the ghost `last_ingested` record. -/
@[reducible] def FrontInvariant (s : ServerState) : Prop :=
  ∀ p ∈ s.last_ingested,
    (alookup s.robot_to_mission_id_map p.1).bind
      (fun i => i.mission_ids.head?) = alookup s.last_ingested p.1

/-- No mission id held in the registry is blacklisted. -/
@[reducible] def RegistryMissionsNotBlacklisted (s : ServerState) : Prop :=
  ∀ p ∈ s.robot_to_mission_id_map, ∀ mid ∈ p.2.mission_ids,
    missionBlacklisted s.blacklisted_missions mid = false

/-! ## Concrete fixtures used by the witness theorems -/

/-- An empty shared filesystem. -/
def fsEmpty : String → Option MissionData := fun _ => none

/-- A one-mission submap fixture. -/
def submapA : MissionData where
  mission_id := "abcd1234"
  sensors := [(0, ⟨1, 2⟩)]
  vertices := [⟨100, ⟨1, 5⟩, ⟨1, 3⟩, ⟨1, 1⟩⟩]

/-- A filesystem carrying `submapA` at `/s1`. -/
def fsA : String → Option MissionData := fun p =>
  if p = "/s1" then some submapA else none

/-- The state after ingesting, loading and processing `/s1` from robot
`A` on the empty state. -/
def stateA : ServerState :=
  runSubmapProcessingCommands
    (loadSubmapTask fsA (loadAndProcessSubmap {} "A" "/s1").2 (mapHash "/s1"))
    (mapHash "/s1")

/-- `stateA` after one merge iteration: `/s1` is merged. -/
def stateAMerged : ServerState := (runOneMergeIteration stateA).1

/-- The `/s1` record after load, processing and merge. -/
def recAMerged : SubmapProcess :=
  { robot_name := "A", path := "/s1", is_loaded := true,
    map_key := submapKeyOfHash (mapHash "/s1"), map_hash := mapHash "/s1",
    is_processed := true, is_merged := true }

/-- The registry entry of robot `A` in `stateAMerged`. -/
def infoA : RobotMissionInformation :=
  { mission_ids := ["abcd1234"],
    T_M_B_submaps_input := [(100, ⟨1, 3⟩)],
    T_G_M_submaps_input := [(100, ⟨1, 1⟩)] }

/-- A state whose robot `A` most recently ingested mission `abcd1234`,
which is blacklisted: the merge iteration's registry clearing then
breaks the front-of-mission-ids condition. -/
def stateC8 : ServerState :=
  { robot_to_mission_id_map := [("A", { mission_ids := ["abcd1234"] })],
    last_ingested := [("A", "abcd1234")],
    blacklisted_missions := [("abcd1234", "deleted by operator request")] }

/-- A five-record queue for the append-step witness: three processed
records (the second carrying a blacklisted mission), a non-processed
record, and a processed record stuck behind it. -/
def stateC1 : ServerState :=
  { map_store := [
      ("k1", [{ mission_id := "m1", sensors := [], vertices := [] }]),
      ("k2", [{ mission_id := "mbl", sensors := [], vertices := [] }]),
      ("k3", [{ mission_id := "m3", sensors := [], vertices := [] }]),
      ("k5", [{ mission_id := "m5", sensors := [], vertices := [] }])],
    submap_processing_queue := [
      { robot_name := "A", path := "/1", is_loaded := true, map_key := "k1",
        map_hash := 1, is_processed := true },
      { robot_name := "B", path := "/2", is_loaded := true, map_key := "k2",
        map_hash := 2, is_processed := true },
      { robot_name := "A", path := "/3", is_loaded := true, map_key := "k3",
        map_hash := 3, is_processed := true },
      { robot_name := "B", path := "/4", is_loaded := false, map_key := "",
        map_hash := 4 },
      { robot_name := "A", path := "/5", is_loaded := true, map_key := "k5",
        map_hash := 5, is_processed := true }],
    blacklisted_missions := [("mbl", "deleted by operator request")] }

/-- `stateAMerged` with an unrelated pending queue record: same merged
map and registry, different remaining state. -/
def stateAVariant : ServerState :=
  { stateAMerged with submap_processing_queue :=
      [{ robot_name := "B", path := "/x", map_hash := 7 }] }

/-! ## Lemmas about the association-list helpers -/

theorem alookup_aset_self {κ α : Type} [DecidableEq κ] (l : List (κ × α))
    (k : κ) (v : α) : alookup (aset l k v) k = some v := by
  induction l with
  | nil => simp [aset, alookup]
  | cons p rest ih =>
    by_cases h : p.1 = k
    · simp [aset, h, alookup]
    · simp [aset, h, alookup, ih]

theorem alookup_aset_ne {κ α : Type} [DecidableEq κ] (l : List (κ × α))
    (k' k : κ) (v : α) (h : k' ≠ k) :
    alookup (aset l k' v) k = alookup l k := by
  induction l with
  | nil => simp [aset, alookup, h]
  | cons p rest ih =>
    by_cases hp : p.1 = k'
    · simp [aset, hp, alookup, h]
    · simp [aset, hp, alookup, ih]

theorem alookup_aerase_self {κ α : Type} [DecidableEq κ] (l : List (κ × α))
    (k : κ) : alookup (aerase l k) k = none := by
  induction l with
  | nil => simp [aerase, alookup]
  | cons p rest ih =>
    by_cases hp : p.1 = k
    · simpa [aerase, hp] using ih
    · simpa [aerase, hp, alookup] using ih

theorem alookup_aerase_ne {κ α : Type} [DecidableEq κ] (l : List (κ × α))
    (k' k : κ) (h : k' ≠ k) : alookup (aerase l k') k = alookup l k := by
  induction l with
  | nil => simp [aerase, alookup]
  | cons p rest ih =>
    by_cases hp : p.1 = k'
    · have h1 : aerase (p :: rest) k' = aerase rest k' := by
        simp [aerase, List.filter_cons, hp]
      have h2 : p.1 ≠ k := by rw [hp]; exact h
      rw [h1, ih, alookup, if_neg h2]
    · have h1 : aerase (p :: rest) k' = p :: aerase rest k' := by
        simp [aerase, List.filter_cons, hp]
      by_cases hk : p.1 = k
      · rw [h1, alookup, alookup, if_pos hk, if_pos hk]
      · rw [h1, alookup, alookup, if_neg hk, if_neg hk, ih]

theorem alookup_ainsertIfAbsent_of_some {κ α : Type} [DecidableEq κ]
    (l : List (κ × α)) (k' k : κ) (w v : α) (h : alookup l k = some v) :
    alookup (ainsertIfAbsent l k' w) k = some v := by
  unfold ainsertIfAbsent
  by_cases hk : (alookup l k').isSome
  · simp [hk, h]
  · by_cases hkk : k' = k
    · subst hkk; rw [h] at hk; simp at hk
    · simp [hk, alookup, hkk, h]

theorem alookup_ainsertIfAbsent_self_isSome {κ α : Type} [DecidableEq κ]
    (l : List (κ × α)) (k : κ) (v : α) :
    (alookup (ainsertIfAbsent l k v) k).isSome := by
  unfold ainsertIfAbsent
  by_cases hk : (alookup l k).isSome
  · simp [hk]
  · simp [hk, alookup]

theorem ainsertIfAbsent_of_isSome {κ α : Type} [DecidableEq κ]
    (l : List (κ × α)) (k : κ) (v : α) (h : (alookup l k).isSome) :
    ainsertIfAbsent l k v = l := by
  simp [ainsertIfAbsent, h]

theorem alookup_ainsertIfAbsent_isSome_mono {κ α : Type} [DecidableEq κ]
    (l : List (κ × α)) (k' k : κ) (w : α) (h : (alookup l k).isSome) :
    (alookup (ainsertIfAbsent l k' w) k).isSome := by
  obtain ⟨v, hv⟩ := Option.isSome_iff_exists.mp h
  rw [alookup_ainsertIfAbsent_of_some l k' k w v hv]
  rfl

/-! ## Queue-shape lemmas for the individual operations -/

theorem deleteBlacklistedMissions_queue (s : ServerState) :
    (deleteBlacklistedMissions s).submap_processing_queue =
      s.submap_processing_queue := rfl

theorem deleteMission_state_queue (s : ServerState) (pid : String) :
    (deleteMission s pid).2.2.submap_processing_queue =
      s.submap_processing_queue := by
  unfold deleteMission
  split
  · rfl
  · split <;> rfl

theorem deleteAllRobotMissions_state_queue (s : ServerState) (robot : String) :
    (deleteAllRobotMissions s robot).2.submap_processing_queue =
      s.submap_processing_queue := by
  unfold deleteAllRobotMissions
  split <;> rfl

theorem appendLoop_queue_suffix (bl : List (MissionId × String))
    (store : List (String × VIMap)) (q : List SubmapProcess) :
    (appendLoop bl store q).2.1 <:+ q := by
  induction q generalizing store with
  | nil => simp [appendLoop]
  | cons rec rest ih =>
    unfold appendLoop
    split
    · split
      · exact (ih _).trans (List.suffix_cons rec rest)
      · exact (ih _).trans (List.suffix_cons rec rest)
    · exact List.suffix_rfl

theorem loadSubmapTask_queue_cases (fs : String → Option MissionData)
    (s : ServerState) (h : Nat) :
    (loadSubmapTask fs s h).submap_processing_queue = s.submap_processing_queue ∨
    (loadSubmapTask fs s h).submap_processing_queue =
      removeByHash s.submap_processing_queue h ∨
    ∃ g : SubmapProcess → SubmapProcess,
      (∀ r, (g r).map_hash = r.map_hash) ∧
      (loadSubmapTask fs s h).submap_processing_queue =
        s.submap_processing_queue.map g := by
  unfold loadSubmapTask
  split
  · exact Or.inl rfl
  · split
    · exact Or.inr (Or.inl rfl)
    · split
      · exact Or.inr (Or.inl rfl)
      · refine Or.inr (Or.inr ⟨_, ?_, rfl⟩)
        intro r
        by_cases hr : r.map_hash = h <;> simp [hr]

theorem runSubmapProcessingCommands_queue (s : ServerState) (h : Nat) :
    ∃ g : SubmapProcess → SubmapProcess,
      (∀ r, (g r).map_hash = r.map_hash) ∧
      (runSubmapProcessingCommands s h).submap_processing_queue =
        s.submap_processing_queue.map g := by
  refine ⟨_, ?_, rfl⟩
  intro r
  by_cases hr : r.map_hash = h && r.is_loaded <;> simp [hr]

theorem map_hash_of_hash_preserving (q : List SubmapProcess)
    (g : SubmapProcess → SubmapProcess)
    (hg : ∀ r, (g r).map_hash = r.map_hash) :
    (q.map g).map (fun r => r.map_hash) = q.map (fun r => r.map_hash) := by
  induction q with
  | nil => rfl
  | cons a rest ih => simp [hg, ih]

/-! ## C5: at most one queue record per map hash -/

theorem nodup_hashes_removeByHash (q : List SubmapProcess) (h : Nat)
    (hinv : (q.map (fun r => r.map_hash)).Nodup) :
    ((removeByHash q h).map (fun r => r.map_hash)).Nodup :=
  hinv.sublist ((List.filter_sublist q).map (fun r => r.map_hash))

/-- C5: for any map hash, at most one `SubmapProcess` record is in the
queue: `loadAndProcessSubmap` computes the hash from the path and, when
a record with that hash is already queued, rejects the call as a
duplicate leaving the state unchanged; and every server operation
preserves distinctness of the queued hashes. -/
theorem c5_map_hash_unique_in_queue (fs : String → Option MissionData)
    (s : ServerState) (robot path : String) (op : ServerOp)
    (hinv : (s.submap_processing_queue.map (fun r => r.map_hash)).Nodup) :
    ((s.submap_processing_queue.map (fun r => r.map_hash)).contains
        (mapHash path) → loadAndProcessSubmap s robot path = (false, s)) ∧
    ((applyServerOp fs s op).submap_processing_queue.map
        (fun r => r.map_hash)).Nodup := by
  constructor
  · intro hdup
    unfold loadAndProcessSubmap
    simp only [hdup, if_true]
  · cases op with
    | opLoadAndProcessSubmap robot' path' =>
      show ((loadAndProcessSubmap s robot' path').2.submap_processing_queue.map
        (fun r => r.map_hash)).Nodup
      simp only [loadAndProcessSubmap]
      split
      · exact hinv
      · next hni =>
        simp only [List.map_append, List.map_cons, List.map_nil]
        rw [List.nodup_append]
        refine ⟨hinv, List.nodup_singleton _, ?_⟩
        intro a ha hb
        simp only [List.mem_singleton] at hb
        subst hb
        exact hni (by simpa using ha)
    | opLoaderTask h =>
      show ((loadSubmapTask fs s h).submap_processing_queue.map
        (fun r => r.map_hash)).Nodup
      rcases loadSubmapTask_queue_cases fs s h with hq | hq | ⟨g, hg, hq⟩
      · rw [hq]; exact hinv
      · rw [hq]; exact nodup_hashes_removeByHash _ _ hinv
      · rw [hq, map_hash_of_hash_preserving _ _ hg]; exact hinv
    | opProcessTask h =>
      obtain ⟨g, hg, hq⟩ := runSubmapProcessingCommands_queue s h
      show ((runSubmapProcessingCommands s h).submap_processing_queue.map
        (fun r => r.map_hash)).Nodup
      rw [hq, map_hash_of_hash_preserving _ _ hg]
      exact hinv
    | opMergeIteration =>
      show (((runOneMergeIteration s).1).submap_processing_queue.map
        (fun r => r.map_hash)).Nodup
      unfold runOneMergeIteration appendAvailableSubmaps
      have hsuf := appendLoop_queue_suffix
        (deleteBlacklistedMissions s).blacklisted_missions
        (deleteBlacklistedMissions s).map_store
        (deleteBlacklistedMissions s).submap_processing_queue
      rw [deleteBlacklistedMissions_queue] at hsuf
      exact hinv.sublist (hsuf.sublist.map (fun r => r.map_hash))
    | opDeleteMission pid =>
      show ((deleteMission s pid).2.2.submap_processing_queue.map
        (fun r => r.map_hash)).Nodup
      rw [deleteMission_state_queue]
      exact hinv
    | opDeleteAllRobotMissions robot' =>
      show ((deleteAllRobotMissions s robot').2.submap_processing_queue.map
        (fun r => r.map_hash)).Nodup
      rw [deleteAllRobotMissions_state_queue]
      exact hinv
    | opMapLookup robot' sensor t p =>
      exact hinv

/-- Witness for C5 at a concrete state: a duplicate of `/s1` is
rejected on `stateA`, and a merge iteration keeps the hashes distinct. -/
theorem c5_map_hash_unique_in_queue_witness :
    ((stateA.submap_processing_queue.map (fun r => r.map_hash)).contains
        (mapHash "/s1") → loadAndProcessSubmap stateA "A" "/s1" = (false, stateA)) ∧
    ((applyServerOp fsA stateA .opMergeIteration).submap_processing_queue.map
        (fun r => r.map_hash)).Nodup :=
  c5_map_hash_unique_in_queue fsA stateA "A" "/s1" .opMergeIteration (by decide)

/-! ## C10: deleteAllRobotMissions blacklists all and is idempotent -/

theorem blacklistAllMissions_preserves_isSome (ids : List MissionId)
    (bl0 : List (MissionId × String)) (robot : String) (k : MissionId)
    (h : (alookup bl0 k).isSome) :
    (alookup (blacklistAllMissions bl0 ids robot) k).isSome := by
  induction ids generalizing bl0 with
  | nil => exact h
  | cons a rest ih =>
    exact ih _ (alookup_ainsertIfAbsent_isSome_mono bl0 a k _ h)

theorem blacklistAllMissions_isSome_of_mem (ids : List MissionId)
    (bl0 : List (MissionId × String)) (robot : String) (k : MissionId)
    (h : k ∈ ids) :
    (alookup (blacklistAllMissions bl0 ids robot) k).isSome := by
  induction ids generalizing bl0 with
  | nil => cases h
  | cons a rest ih =>
    rcases List.mem_cons.mp h with rfl | hmem
    · exact blacklistAllMissions_preserves_isSome rest _ robot k
        (alookup_ainsertIfAbsent_self_isSome bl0 k _)
    · exact ih _ hmem

theorem blacklistAllMissions_of_all_present (ids : List MissionId)
    (bl0 : List (MissionId × String)) (robot : String)
    (h : ∀ m ∈ ids, (alookup bl0 m).isSome) :
    blacklistAllMissions bl0 ids robot = bl0 := by
  induction ids with
  | nil => rfl
  | cons a rest ih =>
    have ha := h a (List.mem_cons_self a rest)
    show blacklistAllMissions (ainsertIfAbsent bl0 a _) rest robot = bl0
    rw [ainsertIfAbsent_of_isSome _ _ _ ha]
    exact ih (fun m hm => h m (List.mem_cons_of_mem a hm))

/-- The blacklist after a successful `deleteAllRobotMissions`. -/
theorem deleteAllRobotMissions_of_found (s : ServerState) (robot : String)
    (info : RobotMissionInformation)
    (hreg : alookup s.robot_to_mission_id_map robot = some info) :
    (deleteAllRobotMissions s robot).2 =
      { s with blacklisted_missions :=
                 blacklistAllMissions s.blacklisted_missions
                   info.mission_ids robot } := by
  simp [deleteAllRobotMissions, hreg]

/-- C10: `deleteAllRobotMissions` blacklists every mission id of the
robot's registry entry, and a second call with the same robot leaves
the server state identical to the state after the first call. -/
theorem c10_deleteAllRobotMissions_idempotent (s : ServerState)
    (robot : String) :
    (deleteAllRobotMissions (deleteAllRobotMissions s robot).2 robot).2 =
      (deleteAllRobotMissions s robot).2 ∧
    (∀ info, alookup s.robot_to_mission_id_map robot = some info →
      ∀ m ∈ info.mission_ids,
        (alookup (deleteAllRobotMissions s robot).2.blacklisted_missions
          m).isSome) := by
  rcases hreg : alookup s.robot_to_mission_id_map robot with _ | info
  · constructor
    · simp [deleteAllRobotMissions, hreg]
    · intro info hinfo
      cases hinfo
  · have h1 := deleteAllRobotMissions_of_found s robot info hreg
    constructor
    · rw [h1]
      have h2 := deleteAllRobotMissions_of_found
        { s with blacklisted_missions :=
                   blacklistAllMissions s.blacklisted_missions
                     info.mission_ids robot }
        robot info hreg
      rw [h2]
      rw [blacklistAllMissions_of_all_present _ _ _
        (fun m hm => blacklistAllMissions_isSome_of_mem _ _ _ m hm)]
    · intro info' hinfo' m hm
      cases hinfo'
      rw [h1]
      exact blacklistAllMissions_isSome_of_mem _ _ _ m hm

/-- Witness for C10 on a concrete state with a registered robot. -/
theorem c10_deleteAllRobotMissions_idempotent_witness :
    (deleteAllRobotMissions (deleteAllRobotMissions stateA "A").2 "A").2 =
      (deleteAllRobotMissions stateA "A").2 ∧
    (∀ info, alookup stateA.robot_to_mission_id_map "A" = some info →
      ∀ m ∈ info.mission_ids,
        (alookup (deleteAllRobotMissions stateA "A").2.blacklisted_missions
          m).isSome) :=
  c10_deleteAllRobotMissions_idempotent stateA "A"

/-! ## C4: deleteMission partial-id resolution -/

theorem mem_dedupKeys {α : Type} [DecidableEq α] (l : List α) (a : α) :
    a ∈ dedupKeys l ↔ a ∈ l := by
  induction l with
  | nil => simp [dedupKeys]
  | cons b rest ih =>
    by_cases hb : b ∈ rest
    · simp only [dedupKeys, if_pos hb, ih, List.mem_cons]
      constructor
      · exact Or.inr
      · rintro (rfl | h)
        · exact hb
        · exact h
    · simp only [dedupKeys, if_neg hb, List.mem_cons, ih]

/-- C4: `deleteMission` resolves the partial id (of length at least 4)
as a prefix against all known mission ids: the matches are exactly the
known ids having the queried string as a prefix; with no match it fails
with "mission not found"; with two or more matches it fails with
"ambiguous mission id"; with a unique match it blacklists the resolved
id and returns a status message carrying the full resolved id.  In the
failure cases the state is unchanged. -/
theorem c4_deleteMission_resolution (s : ServerState) (pid : String)
    (hlen : 4 ≤ pid.length) :
    (∀ m, m ∈ matchingMissionIds s pid ↔
      m ∈ knownMissionIds s ∧ strHasPre m pid = true) ∧
    (matchingMissionIds s pid = [] →
      deleteMission s pid = (false, "mission not found", s)) ∧
    (∀ m, matchingMissionIds s pid = [m] →
      deleteMission s pid = (true, "blacklisted mission " ++ m,
        { s with blacklisted_missions :=
                   ainsertIfAbsent s.blacklisted_missions m
                     "deleted by operator request" })) ∧
    (2 ≤ (matchingMissionIds s pid).length →
      deleteMission s pid = (false, "ambiguous mission id", s)) := by
  have hno : ¬pid.length < 4 := by omega
  refine ⟨?_, ?_, ?_, ?_⟩
  · intro m
    unfold matchingMissionIds
    rw [mem_dedupKeys, List.mem_filter]
  · intro hm
    unfold deleteMission
    rw [if_neg hno, hm]
  · intro m hm
    unfold deleteMission
    rw [if_neg hno, hm]
  · intro hm
    unfold deleteMission
    rw [if_neg hno]
    rcases hq : matchingMissionIds s pid with _ | ⟨a, _ | ⟨b, t⟩⟩
    · rw [hq] at hm; simp at hm
    · rw [hq] at hm; simp at hm
    · rfl

/-- Witness for C4: on `stateAMerged` the partial id `abcd` uniquely
resolves to mission `abcd1234`. -/
theorem c4_deleteMission_resolution_witness :
    (∀ m, m ∈ matchingMissionIds stateAMerged "abcd" ↔
      m ∈ knownMissionIds stateAMerged ∧ strHasPre m "abcd" = true) ∧
    (matchingMissionIds stateAMerged "abcd" = [] →
      deleteMission stateAMerged "abcd" =
        (false, "mission not found", stateAMerged)) ∧
    (∀ m, matchingMissionIds stateAMerged "abcd" = [m] →
      deleteMission stateAMerged "abcd" = (true, "blacklisted mission " ++ m,
        { stateAMerged with blacklisted_missions :=
                              ainsertIfAbsent stateAMerged.blacklisted_missions m
                                "deleted by operator request" })) ∧
    (2 ≤ (matchingMissionIds stateAMerged "abcd").length →
      deleteMission stateAMerged "abcd" =
        (false, "ambiguous mission id", stateAMerged)) :=
  c4_deleteMission_resolution stateAMerged "abcd" (by decide)

/-! ## C7: mapLookup status classification -/

theorem maxTimestamp_mem (l : List Int) (mx : Int)
    (h : maxTimestamp l = some mx) : mx ∈ l := by
  induction l generalizing mx with
  | nil => cases h
  | cons t rest ih =>
    rw [maxTimestamp] at h
    rcases hr : maxTimestamp rest with _ | m <;> rw [hr] at h <;> simp at h
    · subst h
      exact List.mem_cons_self t rest
    · subst h
      rcases le_total t m with hle | hle
      · rw [max_eq_right hle]
        exact List.mem_cons_of_mem t (ih m hr)
      · rw [max_eq_left hle]
        exact List.mem_cons_self t rest

theorem le_maxTimestamp (l : List Int) (x mx : Int)
    (hx : x ∈ l) (h : maxTimestamp l = some mx) : x ≤ mx := by
  induction l generalizing mx with
  | nil => cases hx
  | cons t rest ih =>
    rw [maxTimestamp] at h
    rcases hr : maxTimestamp rest with _ | m <;> rw [hr] at h <;> simp at h
    · rcases List.mem_cons.mp hx with rfl | hmem
      · omega
      · cases rest with
        | nil => cases hmem
        | cons a b => rw [maxTimestamp] at hr; cases hr
    · rcases List.mem_cons.mp hx with rfl | hmem
      · subst h
        exact le_max_left x m
      · subst h
        exact le_trans (ih m hmem hr) (le_max_right t m)

theorem maxTimestamp_isSome_of_ne_nil (l : List Int) (h : l ≠ []) :
    (maxTimestamp l).isSome := by
  cases l with
  | nil => cases h rfl
  | cons t rest => rw [maxTimestamp]; rfl

theorem minTimestamp_mem (l : List Int) (mn : Int)
    (h : minTimestamp l = some mn) : mn ∈ l := by
  unfold minTimestamp at h
  rcases hm : maxTimestamp (l.map (fun t => -t)) with _ | m <;> rw [hm] at h
  · cases h
  · simp at h
    have hmem := maxTimestamp_mem _ _ hm
    rcases List.mem_map.mp hmem with ⟨x, hxl, hxm⟩
    have hx : x = mn := by omega
    exact hx ▸ hxl

theorem minTimestamp_le (l : List Int) (x mn : Int)
    (hx : x ∈ l) (h : minTimestamp l = some mn) : mn ≤ x := by
  unfold minTimestamp at h
  rcases hm : maxTimestamp (l.map (fun t => -t)) with _ | m <;> rw [hm] at h
  · cases h
  · simp at h
    have hlx := le_maxTimestamp _ (-x) m (List.mem_map.mpr ⟨x, hx, rfl⟩) hm
    omega

theorem minTimestamp_neg_max (l : List Int) (mn : Int)
    (h : minTimestamp l = some mn) :
    maxTimestamp (l.map (fun t => -t)) = some (-mn) := by
  unfold minTimestamp at h
  rcases hm : maxTimestamp (l.map (fun t => -t)) with _ | m <;> rw [hm] at h
  · cases h
  · simp at h
    have hx : m = -mn := by omega
    rw [hx]

/-- C7: with the robot, mission and sensor resolved, `mapLookup`
returns `kPoseNotAvailableYet` when the mission has no vertices or its
last vertex timestamp is below the query minus the tolerance, returns
`kPoseNeverAvailable` whenever the query is older than the oldest
vertex by more than the tolerance, returns `kSuccess` with the
interpolated pose in every other case, and its status always is one of
the five `MapLookupStatus` values. -/
theorem c7_mapLookup_status (s : ServerState) (robot : String)
    (sensor : SensorId) (t : Int) (p_S : ℤ)
    (info : RobotMissionInformation) (m : MissionId) (md : MissionData)
    (T_B_S : Transformation)
    (hreg : alookup s.robot_to_mission_id_map robot = some info)
    (hhead : info.mission_ids.head? = some m)
    (hmd : (mergedMapOf s).find? (fun d => d.mission_id = m) = some md)
    (hsen : alookup md.sensors sensor = some T_B_S) :
    (md.vertices = [] →
      mapLookup s robot sensor t p_S =
        (MapLookupStatus.kPoseNotAvailableYet, none, none)) ∧
    (∀ last, maxTimestamp (md.vertices.map (fun v => v.timestamp_ns)) =
        some last → last < t - kLookupToleranceNs →
      mapLookup s robot sensor t p_S =
        (MapLookupStatus.kPoseNotAvailableYet, none, none)) ∧
    (∀ last oldest,
        maxTimestamp (md.vertices.map (fun v => v.timestamp_ns)) = some last →
        minTimestamp (md.vertices.map (fun v => v.timestamp_ns)) = some oldest →
        oldest - t > kLookupToleranceNs →
      mapLookup s robot sensor t p_S =
        (MapLookupStatus.kPoseNeverAvailable, none, none)) ∧
    (∀ last oldest,
        maxTimestamp (md.vertices.map (fun v => v.timestamp_ns)) = some last →
        minTimestamp (md.vertices.map (fun v => v.timestamp_ns)) = some oldest →
        ¬last < t - kLookupToleranceNs → ¬oldest - t > kLookupToleranceNs →
      mapLookup s robot sensor t p_S = (MapLookupStatus.kSuccess,
        some ((interpolatedPoseAt md.vertices t * T_B_S).apply p_S),
        some ((interpolatedPoseAt md.vertices t * T_B_S).apply 0))) ∧
    ((mapLookup s robot sensor t p_S).1 = MapLookupStatus.kSuccess ∨
      (mapLookup s robot sensor t p_S).1 = MapLookupStatus.kNoSuchMission ∨
      (mapLookup s robot sensor t p_S).1 = MapLookupStatus.kNoSuchSensor ∨
      (mapLookup s robot sensor t p_S).1 =
        MapLookupStatus.kPoseNotAvailableYet ∨
      (mapLookup s robot sensor t p_S).1 =
        MapLookupStatus.kPoseNeverAvailable) := by
  have hmap : ∀ x : List SubmapVertex,
      (x.map (fun v => v.timestamp_ns)).map (fun ts => -ts) =
        x.map (fun v => -v.timestamp_ns) := by
    intro x
    rw [List.map_map]
    rfl
  refine ⟨?_, ?_, ?_, ?_, ?_⟩
  · intro hv
    simp only [mapLookup, hreg, hhead, hmd, hsen, hv, List.map_nil,
      maxTimestamp]
  · intro last hlast hlt
    simp only [mapLookup, hreg, hhead, hmd, hsen, hlast, if_pos hlt]
  · intro last oldest hlast hmin hgt
    have hle := minTimestamp_le _ _ _
      (maxTimestamp_mem _ _ hlast) hmin
    have hneg : maxTimestamp (md.vertices.map (fun v => -v.timestamp_ns)) =
        some (-oldest) := by
      have hx := minTimestamp_neg_max _ _ hmin
      rw [hmap] at hx
      exact hx
    have hK : kLookupToleranceNs = (100000000 : Int) := rfl
    have hnotlt : ¬last < t - kLookupToleranceNs := by omega
    simp only [mapLookup, hreg, hhead, hmd, hsen, hlast, hneg, if_neg hnotlt,
      Option.getD_some]
    rw [if_pos (by omega)]
  · intro last oldest hlast hmin hnlt hngt
    have hneg : maxTimestamp (md.vertices.map (fun v => -v.timestamp_ns)) =
        some (-oldest) := by
      have hx := minTimestamp_neg_max _ _ hmin
      rw [hmap] at hx
      exact hx
    simp only [mapLookup, hreg, hhead, hmd, hsen, hlast, hneg, if_neg hnlt,
      Option.getD_some]
    rw [if_neg (by omega)]
  · rcases h : (mapLookup s robot sensor t p_S).1 <;> simp

/-- Witness for C7 on the concrete merged state: mission and sensor
resolve and the three timestamp classes behave as claimed. -/
theorem c7_mapLookup_status_witness :
    (submapA.vertices = [] →
      mapLookup stateAMerged "A" 0 100 3 =
        (MapLookupStatus.kPoseNotAvailableYet, none, none)) ∧
    (∀ last, maxTimestamp (submapA.vertices.map (fun v => v.timestamp_ns)) =
        some last → last < 100 - kLookupToleranceNs →
      mapLookup stateAMerged "A" 0 100 3 =
        (MapLookupStatus.kPoseNotAvailableYet, none, none)) ∧
    (∀ last oldest,
        maxTimestamp (submapA.vertices.map (fun v => v.timestamp_ns)) =
          some last →
        minTimestamp (submapA.vertices.map (fun v => v.timestamp_ns)) =
          some oldest →
        oldest - 100 > kLookupToleranceNs →
      mapLookup stateAMerged "A" 0 100 3 =
        (MapLookupStatus.kPoseNeverAvailable, none, none)) ∧
    (∀ last oldest,
        maxTimestamp (submapA.vertices.map (fun v => v.timestamp_ns)) =
          some last →
        minTimestamp (submapA.vertices.map (fun v => v.timestamp_ns)) =
          some oldest →
        ¬last < 100 - kLookupToleranceNs →
        ¬oldest - 100 > kLookupToleranceNs →
      mapLookup stateAMerged "A" 0 100 3 = (MapLookupStatus.kSuccess,
        some ((interpolatedPoseAt submapA.vertices 100 * ⟨1, 2⟩).apply 3),
        some ((interpolatedPoseAt submapA.vertices 100 * ⟨1, 2⟩).apply 0))) ∧
    ((mapLookup stateAMerged "A" 0 100 3).1 = MapLookupStatus.kSuccess ∨
      (mapLookup stateAMerged "A" 0 100 3).1 =
        MapLookupStatus.kNoSuchMission ∨
      (mapLookup stateAMerged "A" 0 100 3).1 = MapLookupStatus.kNoSuchSensor ∨
      (mapLookup stateAMerged "A" 0 100 3).1 =
        MapLookupStatus.kPoseNotAvailableYet ∨
      (mapLookup stateAMerged "A" 0 100 3).1 =
        MapLookupStatus.kPoseNeverAvailable) := by
  have h := c7_mapLookup_status stateAMerged "A" 0 100 3
    { mission_ids := ["abcd1234"],
      T_M_B_submaps_input := [(100, ⟨1, 3⟩)],
      T_G_M_submaps_input := [(100, ⟨1, 1⟩)] }
    "abcd1234"
    { mission_id := "abcd1234", sensors := [(0, ⟨1, 2⟩)],
      vertices := [⟨100, ⟨1, 5⟩, ⟨1, 3⟩, ⟨1, 1⟩⟩] }
    ⟨1, 2⟩ (by decide) (by decide) (by decide) (by decide)
  exact h

/-! ## C9: mapLookup is a read-only query -/

/-- C9: `mapLookup` leaves the server state unchanged; its result
depends only on the merged map-store entry and the robot registry (its
read set); and inserting a lookup anywhere into a run of operations
does not alter the run's final state.  In this sequential embedding a
merge iteration is one atomic operation, so a lookup observes either
the pre-iteration or the post-iteration merged map. -/
theorem c9_mapLookup_read_only (fs : String → Option MissionData)
    (s : ServerState) (robot : String) (sensor : SensorId) (t : Int)
    (p : ℤ) :
    applyServerOp fs s (.opMapLookup robot sensor t p) = s ∧
    (∀ s₁ s₂ : ServerState,
      alookup s₁.map_store kMergedMapKey = alookup s₂.map_store kMergedMapKey →
      s₁.robot_to_mission_id_map = s₂.robot_to_mission_id_map →
      mapLookup s₁ robot sensor t p = mapLookup s₂ robot sensor t p) ∧
    (∀ ops₁ ops₂ : List ServerOp,
      runOps fs s (ops₁ ++ .opMapLookup robot sensor t p :: ops₂) =
        runOps fs s (ops₁ ++ ops₂)) := by
  refine ⟨rfl, ?_, ?_⟩
  · intro s₁ s₂ h1 h2
    unfold mapLookup mergedMapOf
    rw [h1, h2]
  · intro ops₁ ops₂
    unfold runOps
    rw [List.foldl_append, List.foldl_append, List.foldl_cons]
    rfl

/-- Witness for C9: the read-set conjunct applied to two concrete
states agreeing on merged map and registry but differing elsewhere. -/
theorem c9_mapLookup_read_only_witness :
    applyServerOp fsA stateAMerged (.opMapLookup "A" 0 100 3) =
      stateAMerged ∧
    mapLookup stateAMerged "A" 0 100 3 = mapLookup stateAVariant "A" 0 100 3 :=
  ⟨(c9_mapLookup_read_only fsA stateAMerged "A" 0 100 3).1,
    (c9_mapLookup_read_only fsA stateAMerged "A" 0 100 3).2.1
      stateAMerged stateAVariant (by decide) (by decide)⟩

/-! ## C2: the blacklist is permanent and filters the merged map -/

theorem loadAndProcessSubmap_bl (s : ServerState) (robot path : String) :
    (loadAndProcessSubmap s robot path).2.blacklisted_missions =
      s.blacklisted_missions := by
  unfold loadAndProcessSubmap
  dsimp only
  split <;> rfl

theorem loadSubmapTask_bl (fs : String → Option MissionData)
    (s : ServerState) (h : Nat) :
    (loadSubmapTask fs s h).blacklisted_missions = s.blacklisted_missions := by
  unfold loadSubmapTask
  split
  · rfl
  · split
    · rfl
    · split <;> rfl

theorem runOneMergeIteration_bl (s : ServerState) :
    (runOneMergeIteration s).1.blacklisted_missions =
      s.blacklisted_missions := rfl

theorem alookup_blacklistAllMissions_of_some (ids : List MissionId)
    (bl0 : List (MissionId × String)) (robot : String) (k : MissionId)
    (v : String) (h : alookup bl0 k = some v) :
    alookup (blacklistAllMissions bl0 ids robot) k = some v := by
  induction ids generalizing bl0 with
  | nil => exact h
  | cons a rest ih =>
    exact ih _ (alookup_ainsertIfAbsent_of_some bl0 a k _ v h)

theorem mergedMissionsClean_aerase (bl : List (MissionId × String))
    (store : List (String × VIMap)) (k : String)
    (h : mergedMissionsClean bl store) :
    mergedMissionsClean bl (aerase store k) := by
  intro md hmd
  by_cases hk : k = kMergedMapKey
  · rw [hk, alookup_aerase_self] at hmd
    cases hmd
  · rw [alookup_aerase_ne _ _ _ hk] at hmd
    exact h md hmd

theorem mergeMissionInto_missions (mm : VIMap) (md : MissionData)
    (P : MissionId → Prop) (hmm : ∀ e ∈ mm, P e.mission_id)
    (hmd : P md.mission_id) :
    ∀ e ∈ mergeMissionInto mm md, P e.mission_id := by
  induction mm with
  | nil =>
    intro e he
    simp only [mergeMissionInto, List.mem_singleton] at he
    subst he
    exact hmd
  | cons a rest ih =>
    intro e he
    rw [mergeMissionInto] at he
    by_cases ha : a.mission_id = md.mission_id
    · rw [if_pos ha] at he
      rcases List.mem_cons.mp he with rfl | hrest
      · exact hmm a (List.mem_cons_self a rest)
      · exact hmm e (List.mem_cons_of_mem a hrest)
    · rw [if_neg ha] at he
      rcases List.mem_cons.mp he with rfl | hrest
      · exact hmm e (List.mem_cons_self e rest)
      · exact ih (fun e' he' => hmm e' (List.mem_cons_of_mem a he')) e hrest

theorem mergeVIMapInto_missions (sub mm : VIMap) (P : MissionId → Prop)
    (hmm : ∀ e ∈ mm, P e.mission_id) (hsub : ∀ e ∈ sub, P e.mission_id) :
    ∀ e ∈ mergeVIMapInto mm sub, P e.mission_id := by
  induction sub generalizing mm with
  | nil => exact hmm
  | cons a rest ih =>
    show ∀ e ∈ mergeVIMapInto (mergeMissionInto mm a) rest, P e.mission_id
    exact ih _
      (mergeMissionInto_missions mm a P hmm
        (hsub a (List.mem_cons_self a rest)))
      (fun e he => hsub e (List.mem_cons_of_mem a he))

theorem mergedMissionsClean_transfer (bl : List (MissionId × String))
    (store : List (String × VIMap)) (k : String)
    (h : mergedMissionsClean bl store)
    (hk : isSubmapBlacklisted store bl k = false) :
    mergedMissionsClean bl (transferSubmapIntoMergedMap store k) := by
  unfold transferSubmapIntoMergedMap
  rcases hs : alookup store k with _ | sub
  · exact h
  · intro md hmd
    by_cases hkm : k = kMergedMapKey
    · rw [hkm, alookup_aerase_self] at hmd
      cases hmd
    · rw [alookup_aerase_ne _ _ _ hkm, alookup_aset_self] at hmd
      simp only [Option.getD_some] at hmd
      have hany : sub.any
          (fun md => missionBlacklisted bl md.mission_id) = false := by
        unfold isSubmapBlacklisted at hk
        rw [hs] at hk
        simpa using hk
      rw [List.any_eq_false] at hany
      have hsub : ∀ e ∈ sub, missionBlacklisted bl e.mission_id = false := by
        intro e he
        have := hany e he
        simpa using this
      exact mergeVIMapInto_missions sub ((alookup store kMergedMapKey).getD [])
        (fun mid => missionBlacklisted bl mid = false) h hsub md hmd

theorem mergedMissionsClean_appendLoop (bl : List (MissionId × String))
    (store : List (String × VIMap)) (q : List SubmapProcess)
    (h : mergedMissionsClean bl store) :
    mergedMissionsClean bl (appendLoop bl store q).1 := by
  induction q generalizing store with
  | nil => exact h
  | cons rec rest ih =>
    rw [appendLoop]
    by_cases hp : rec.is_processed
    · rw [if_pos hp]
      by_cases hb : isSubmapBlacklisted store bl rec.map_key
      · rw [if_pos hb]
        exact ih _ (mergedMissionsClean_aerase bl store rec.map_key h)
      · rw [if_neg hb]
        exact ih _ (mergedMissionsClean_transfer bl store rec.map_key h
          (by simpa using hb))
    · rw [if_neg hp]
      exact h

theorem mergedMissionsClean_deleteBlacklisted (s : ServerState) :
    mergedMissionsClean s.blacklisted_missions
      (deleteBlacklistedMissions s).map_store := by
  unfold deleteBlacklistedMissions
  rcases hm : alookup s.map_store kMergedMapKey with _ | mm
  · intro md hmd
    simp only at hmd
    rw [hm] at hmd
    cases hmd
  · intro md hmd
    simp only at hmd
    by_cases he : (mm.filter (fun md =>
        !missionBlacklisted s.blacklisted_missions md.mission_id)).isEmpty
    · rw [if_pos he, alookup_aerase_self] at hmd
      cases hmd
    · rw [if_neg he, alookup_aset_self, Option.getD_some] at hmd
      have := List.of_mem_filter hmd
      simpa using this

theorem verticesOfMission_eq_nil (s : ServerState) (m : MissionId)
    (h : ∀ md ∈ mergedMapOf s, md.mission_id ≠ m) :
    verticesOfMission s m = [] := by
  unfold verticesOfMission
  generalize mergedMapOf s = mm at h ⊢
  induction mm with
  | nil => rfl
  | cons a rest ih =>
    rw [List.foldr_cons, if_neg (h a (List.mem_cons_self a rest))]
    exact ih (fun md hmd => h md (List.mem_cons_of_mem a hmd))

theorem deleteBlacklistedMissions_store_none (s : ServerState)
    (h : alookup s.map_store kMergedMapKey = none) :
    (deleteBlacklistedMissions s).map_store = s.map_store := by
  simp [deleteBlacklistedMissions, h]

theorem deleteBlacklistedMissions_store_some (s : ServerState) (mm0 : VIMap)
    (h : alookup s.map_store kMergedMapKey = some mm0) :
    (deleteBlacklistedMissions s).map_store =
      if (mm0.filter (fun md =>
          !missionBlacklisted s.blacklisted_missions md.mission_id)).isEmpty
      then aerase s.map_store kMergedMapKey
      else aset s.map_store kMergedMapKey
        (mm0.filter (fun md =>
          !missionBlacklisted s.blacklisted_missions md.mission_id)) := by
  simp [deleteBlacklistedMissions, h]

/-- C2: a blacklist binding survives every server operation; one full
merge iteration leaves the blacklisted mission with no vertices in the
merged map; the delete step destroys the merged map rather than leave
it without missions; and while the mission is blacklisted, a loader
task for a submap carrying it drops the submap at ingest, removing its
record and touching nothing else. -/
theorem c2_blacklist_permanent (fs : String → Option MissionData)
    (s : ServerState) (m : MissionId)
    (hm : missionBlacklisted s.blacklisted_missions m = true) :
    (∀ (op : ServerOp) (m' : MissionId) (r : String),
      alookup s.blacklisted_missions m' = some r →
      alookup (applyServerOp fs s op).blacklisted_missions m' = some r) ∧
    verticesOfMission (runOneMergeIteration s).1 m = [] ∧
    (∀ mm, alookup (deleteBlacklistedMissions s).map_store kMergedMapKey =
      some mm → mm ≠ []) ∧
    (∀ (h : Nat) (rec : SubmapProcess) (data : MissionData),
      s.submap_processing_queue.find?
        (fun r => r.map_hash = h && !r.is_loaded) = some rec →
      fs rec.path = some data → data.mission_id = m →
      loadSubmapTask fs s h =
        { s with submap_processing_queue :=
            removeByHash s.submap_processing_queue h }) := by
  refine ⟨?_, ?_, ?_, ?_⟩
  · intro op m' r hr
    cases op with
    | opLoadAndProcessSubmap robot' path' =>
      show alookup (loadAndProcessSubmap s robot' path').2.blacklisted_missions
        m' = some r
      rw [loadAndProcessSubmap_bl]
      exact hr
    | opLoaderTask h =>
      show alookup (loadSubmapTask fs s h).blacklisted_missions m' = some r
      rw [loadSubmapTask_bl]
      exact hr
    | opProcessTask h => exact hr
    | opMergeIteration =>
      show alookup (runOneMergeIteration s).1.blacklisted_missions m' = some r
      rw [runOneMergeIteration_bl]
      exact hr
    | opDeleteMission pid =>
      show alookup (deleteMission s pid).2.2.blacklisted_missions m' = some r
      unfold deleteMission
      split
      · exact hr
      · split
        · exact hr
        · exact alookup_ainsertIfAbsent_of_some _ _ _ _ _ hr
        · exact hr
    | opDeleteAllRobotMissions robot' =>
      show alookup (deleteAllRobotMissions s robot').2.blacklisted_missions
        m' = some r
      unfold deleteAllRobotMissions
      split
      · exact hr
      · exact alookup_blacklistAllMissions_of_some _ _ _ _ _ hr
    | opMapLookup robot' sensor t p => exact hr
  · have hclean := mergedMissionsClean_appendLoop
      (deleteBlacklistedMissions s).blacklisted_missions
      (deleteBlacklistedMissions s).map_store
      (deleteBlacklistedMissions s).submap_processing_queue
      (mergedMissionsClean_deleteBlacklisted s)
    apply verticesOfMission_eq_nil
    intro md hmd hcontra
    have hbl : (deleteBlacklistedMissions s).blacklisted_missions =
        s.blacklisted_missions := rfl
    have := hclean md hmd
    rw [hbl, hcontra, hm] at this
    cases this
  · intro mm hmm
    rcases hm2 : alookup s.map_store kMergedMapKey with _ | mm0
    · rw [deleteBlacklistedMissions_store_none s hm2, hm2] at hmm
      cases hmm
    · rw [deleteBlacklistedMissions_store_some s mm0 hm2] at hmm
      by_cases he : (mm0.filter (fun md =>
          !missionBlacklisted s.blacklisted_missions md.mission_id)).isEmpty
      · rw [if_pos he, alookup_aerase_self] at hmm
        cases hmm
      · rw [if_neg he, alookup_aset_self] at hmm
        simp only [Option.some_inj] at hmm
        subst hmm
        intro hnil
        rw [hnil] at he
        exact he rfl
  · intro h rec data hfind hfs hdata
    simp only [loadSubmapTask, hfind, hfs, hdata, hm, if_true]

/-- Witness for C2 on a concrete state with mission `abcd1234`
blacklisted after a merge. -/
theorem c2_blacklist_permanent_witness :
    (∀ (op : ServerOp) (m' : MissionId) (r : String),
      alookup (deleteMission stateAMerged "abcd").2.2.blacklisted_missions
        m' = some r →
      alookup (applyServerOp fsA (deleteMission stateAMerged "abcd").2.2
        op).blacklisted_missions m' = some r) ∧
    verticesOfMission
      (runOneMergeIteration (deleteMission stateAMerged "abcd").2.2).1
      "abcd1234" = [] ∧
    (∀ mm, alookup (deleteBlacklistedMissions
        (deleteMission stateAMerged "abcd").2.2).map_store kMergedMapKey =
      some mm → mm ≠ []) ∧
    (∀ (h : Nat) (rec : SubmapProcess) (data : MissionData),
      (deleteMission stateAMerged "abcd").2.2.submap_processing_queue.find?
        (fun r => r.map_hash = h && !r.is_loaded) = some rec →
      fsA rec.path = some data → data.mission_id = "abcd1234" →
      loadSubmapTask fsA (deleteMission stateAMerged "abcd").2.2 h =
        { (deleteMission stateAMerged "abcd").2.2 with
            submap_processing_queue :=
              removeByHash (deleteMission
                stateAMerged "abcd").2.2.submap_processing_queue h }) :=
  c2_blacklist_permanent fsA (deleteMission stateAMerged "abcd").2.2
    "abcd1234" (by decide)

/-! ## C6: the stage flags are monotonic and ordered -/

theorem appendLoop_merged_mem (bl : List (MissionId × String))
    (store : List (String × VIMap)) (q : List SubmapProcess) :
    ∀ r' ∈ (appendLoop bl store q).2.2, ∃ r ∈ q,
      r.is_processed = true ∧ r' = { r with is_merged := true } := by
  induction q generalizing store with
  | nil =>
    intro r' hr'
    cases hr'
  | cons rec rest ih =>
    intro r' hr'
    rw [appendLoop] at hr'
    by_cases hp : rec.is_processed
    · rw [if_pos hp] at hr'
      by_cases hb : isSubmapBlacklisted store bl rec.map_key
      · rw [if_pos hb] at hr'
        obtain ⟨r, hrq, hrp, hre⟩ := ih _ r' hr'
        exact ⟨r, List.mem_cons_of_mem rec hrq, hrp, hre⟩
      · rw [if_neg hb] at hr'
        rcases List.mem_cons.mp hr' with rfl | htail
        · exact ⟨rec, List.mem_cons_self rec rest, hp, rfl⟩
        · obtain ⟨r, hrq, hrp, hre⟩ := ih _ r' htail
          exact ⟨r, List.mem_cons_of_mem rec hrq, hrp, hre⟩
    · rw [if_neg hp] at hr'
      cases hr'

/-- C6: stage flags start false (with an empty `map_key`) on record
creation; for every operation, a record still in the queue descends
from a record with the same hash whose flags it dominates, preserving
the stage order and the `map_key`-on-load discipline — or is a freshly
created record with all flags false; and the records destroyed by a
merge iteration come from processed queue records, with `is_merged`
set at that moment. -/
theorem c6_stage_flags_monotonic (fs : String → Option MissionData)
    (s : ServerState) :
    (∀ (robot path : String) (r' : SubmapProcess),
      r' ∈ (loadAndProcessSubmap s robot path).2.submap_processing_queue →
      r' ∈ s.submap_processing_queue ∨
      (r'.is_loaded = false ∧ r'.is_processed = false ∧
        r'.is_merged = false ∧ r'.map_key = "")) ∧
    (∀ (op : ServerOp) (r' : SubmapProcess),
      r' ∈ (applyServerOp fs s op).submap_processing_queue →
      (∃ r ∈ s.submap_processing_queue, r.map_hash = r'.map_hash ∧
        flagsLe r r' ∧ (WellStaged r → WellStaged r') ∧
        ((r.is_loaded = false → r.map_key = "") →
          r'.is_loaded = false → r'.map_key = "")) ∨
      (r'.is_loaded = false ∧ r'.is_processed = false ∧
        r'.is_merged = false ∧ r'.map_key = "")) ∧
    (∀ r' ∈ (runOneMergeIteration s).2.1, ∃ r ∈ s.submap_processing_queue,
      r.is_processed = true ∧ r' = { r with is_merged := true }) := by
  have self : ∀ r' ∈ s.submap_processing_queue,
      (∃ r ∈ s.submap_processing_queue, r.map_hash = r'.map_hash ∧
        flagsLe r r' ∧ (WellStaged r → WellStaged r') ∧
        ((r.is_loaded = false → r.map_key = "") →
          r'.is_loaded = false → r'.map_key = "")) := by
    intro r' hr'
    exact ⟨r', hr', rfl, ⟨fun x => x, fun x => x, fun x => x⟩,
      fun w => w, fun k => k⟩
  refine ⟨?_, ?_, ?_⟩
  · intro robot path r' hr'
    revert hr'
    unfold loadAndProcessSubmap
    dsimp only
    split
    · intro hr'
      exact Or.inl hr'
    · intro hr'
      rcases List.mem_append.mp hr' with hold | hnew
      · exact Or.inl hold
      · simp only [List.mem_singleton] at hnew
        subst hnew
        exact Or.inr ⟨rfl, rfl, rfl, rfl⟩
  · intro op r' hr'
    cases op with
    | opLoadAndProcessSubmap robot' path' =>
      have hr2 : r' ∈ (loadAndProcessSubmap s robot' path').2.submap_processing_queue := hr'
      revert hr2
      unfold loadAndProcessSubmap
      dsimp only
      split
      · intro hr2
        exact Or.inl (self r' hr2)
      · intro hr2
        rcases List.mem_append.mp hr2 with hold | hnew
        · exact Or.inl (self r' hold)
        · simp only [List.mem_singleton] at hnew
          subst hnew
          exact Or.inr ⟨rfl, rfl, rfl, rfl⟩
    | opLoaderTask h =>
      have hr2 : r' ∈ (loadSubmapTask fs s h).submap_processing_queue := hr'
      revert hr2
      unfold loadSubmapTask
      split
      · intro hr2
        exact Or.inl (self r' hr2)
      · split
        · intro hr2
          exact Or.inl (self r' (List.mem_of_mem_filter hr2))
        · split
          · intro hr2
            exact Or.inl (self r' (List.mem_of_mem_filter hr2))
          · intro hr2
            simp only [List.mem_map] at hr2
            obtain ⟨r, hrq, hre⟩ := hr2
            left
            by_cases hh : r.map_hash = h
            · rw [if_pos hh] at hre
              subst hre
              refine ⟨r, hrq, rfl,
                ⟨fun _ => rfl, fun x => x, fun x => x⟩, ?_, ?_⟩
              · intro hws
                exact ⟨fun _ => rfl, hws.2⟩
              · intro hk hl
                simp at hl
            · rw [if_neg hh] at hre
              subst hre
              exact self r hrq
    | opProcessTask h =>
      have hr2 : r' ∈ (runSubmapProcessingCommands s h).submap_processing_queue := hr'
      revert hr2
      unfold runSubmapProcessingCommands
      intro hr2
      simp only [List.mem_map] at hr2
      obtain ⟨r, hrq, hre⟩ := hr2
      left
      by_cases hh : (r.map_hash = h && r.is_loaded) = true
      · rw [if_pos hh] at hre
        subst hre
        have hl : r.is_loaded = true := by
          have hh2 := hh
          simp only [Bool.and_eq_true] at hh2
          exact hh2.2
        refine ⟨r, hrq, rfl,
          ⟨fun x => x, fun _ => rfl, fun x => x⟩, ?_, ?_⟩
        · intro hws
          exact ⟨fun _ => hl, fun _ => rfl⟩
        · intro hk hl2
          exact hk (by simpa using hl2)
      · rw [if_neg hh] at hre
        subst hre
        exact self r hrq
    | opMergeIteration =>
      have hsuf := appendLoop_queue_suffix
        (deleteBlacklistedMissions s).blacklisted_missions
        (deleteBlacklistedMissions s).map_store
        (deleteBlacklistedMissions s).submap_processing_queue
      rw [deleteBlacklistedMissions_queue] at hsuf
      exact Or.inl (self r' (hsuf.sublist.mem hr'))
    | opDeleteMission pid =>
      have hq := deleteMission_state_queue s pid
      rw [show (applyServerOp fs s (ServerOp.opDeleteMission pid)) =
        (deleteMission s pid).2.2 from rfl, hq] at hr'
      exact Or.inl (self r' hr')
    | opDeleteAllRobotMissions robot' =>
      have hq := deleteAllRobotMissions_state_queue s robot'
      rw [show (applyServerOp fs s
        (ServerOp.opDeleteAllRobotMissions robot')) =
        (deleteAllRobotMissions s robot').2 from rfl, hq] at hr'
      exact Or.inl (self r' hr')
    | opMapLookup robot' sensor t p =>
      exact Or.inl (self r' hr')
  · intro r' hr'
    exact appendLoop_merged_mem _ _ _ r' hr'

/-- Witness for C6: the record merged out of `stateA`'s queue descends
from the processed `/s1` record. -/
theorem c6_stage_flags_monotonic_witness :
    ∃ r ∈ stateA.submap_processing_queue,
      r.is_processed = true ∧ recAMerged = { r with is_merged := true } :=
  (c6_stage_flags_monotonic fsA stateA).2.2 recAMerged (by decide)

/-! ## C8: the per-robot registry invariant -/

theorem alookup_map_value {κ α β : Type} [DecidableEq κ]
    (l : List (κ × α)) (f : α → β) (k : κ) :
    alookup (l.map (fun p => (p.1, f p.2))) k = (alookup l k).map f := by
  induction l with
  | nil => rfl
  | cons p rest ih =>
    by_cases hp : p.1 = k
    · simp [alookup, hp]
    · simp [alookup, hp, ih]

theorem alookup_mem {κ α : Type} [DecidableEq κ] (l : List (κ × α)) (k : κ)
    (v : α) (h : alookup l k = some v) : (k, v) ∈ l := by
  induction l with
  | nil => cases h
  | cons p rest ih =>
    rw [alookup] at h
    by_cases hp : p.1 = k
    · rw [if_pos hp] at h
      simp only [Option.some_inj] at h
      exact List.mem_cons.mpr (Or.inl (by rw [← hp, ← h]))
    · rw [if_neg hp] at h
      exact List.mem_cons_of_mem p (ih h)

theorem mem_aset_cases {κ α : Type} [DecidableEq κ] (l : List (κ × α))
    (k : κ) (v : α) (p : κ × α) (h : p ∈ aset l k v) :
    p = (k, v) ∨ p ∈ l := by
  induction l with
  | nil =>
    simp only [aset, List.mem_singleton] at h
    exact Or.inl h
  | cons q rest ih =>
    rw [aset] at h
    by_cases hq : q.1 = k
    · rw [if_pos hq] at h
      rcases List.mem_cons.mp h with rfl | hr
      · exact Or.inl (by rw [hq])
      · exact Or.inr (List.mem_cons_of_mem q hr)
    · rw [if_neg hq] at h
      rcases List.mem_cons.mp h with rfl | hr
      · exact Or.inr (List.mem_cons_self _ _)
      · rcases ih hr with hk | hl
        · exact Or.inl hk
        · exact Or.inr (List.mem_cons_of_mem q hl)

theorem alookup_isSome_congr {κ α : Type} [DecidableEq κ]
    (l1 l2 : List (κ × α)) (h : l1.map (fun p => p.1) = l2.map (fun p => p.1))
    (k : κ) : (alookup l1 k).isSome = (alookup l2 k).isSome := by
  induction l1 generalizing l2 with
  | nil =>
    cases l2 with
    | nil => rfl
    | cons q r2 => cases h
  | cons p r1 ih =>
    cases l2 with
    | nil => cases h
    | cons q r2 =>
      simp only [List.map_cons, List.cons.injEq] at h
      obtain ⟨hpq, hrest⟩ := h
      rw [alookup, alookup, hpq]
      by_cases hk : q.1 = k
      · rw [if_pos hk, if_pos hk]
        rfl
      · rw [if_neg hk, if_neg hk]
        exact ih r2 hrest

theorem alookup_insertAnchor_of_some (l : List (Int × Transformation))
    (t t0 : Int) (T v : Transformation) (h : alookup l t0 = some v) :
    alookup (insertAnchorIfAbsent l t T) t0 = some v := by
  unfold insertAnchorIfAbsent
  by_cases ht : (alookup l t).isSome
  · rw [if_pos ht]
    exact h
  · rw [if_neg ht, alookup]
    by_cases htt : t = t0
    · subst htt
      rw [h] at ht
      simp at ht
    · rw [if_neg htt]
      exact h

theorem insertAnchor_keys (l : List (Int × Transformation)) (t : Int)
    (T : Transformation) :
    (insertAnchorIfAbsent l t T).map (fun p => p.1) =
      if (alookup l t).isSome then l.map (fun p => p.1)
      else t :: l.map (fun p => p.1) := by
  unfold insertAnchorIfAbsent
  by_cases ht : (alookup l t).isSome
  · rw [if_pos ht, if_pos ht]
  · rw [if_neg ht, if_neg ht]
    rfl

theorem prependMissionIfNew_anchors (i : RobotMissionInformation)
    (m : MissionId) :
    (prependMissionIfNew i m).T_M_B_submaps_input = i.T_M_B_submaps_input ∧
    (prependMissionIfNew i m).T_G_M_submaps_input = i.T_G_M_submaps_input := by
  unfold prependMissionIfNew
  split <;> exact ⟨rfl, rfl⟩

theorem prependMissionIfNew_head (i : RobotMissionInformation)
    (m : MissionId) :
    (prependMissionIfNew i m).mission_ids.head? = some m := by
  unfold prependMissionIfNew
  split
  · next h => exact h
  · rfl

theorem prependMissionIfNew_ids (i : RobotMissionInformation)
    (m : MissionId) :
    (prependMissionIfNew i m).mission_ids =
      if i.mission_ids.head? = some m then i.mission_ids
      else m :: i.mission_ids := by
  unfold prependMissionIfNew
  split <;> rfl


theorem extractLatest_ids (i : RobotMissionInformation) (d : MissionData) :
    (extractLatestUnoptimizedPose i d).mission_ids = i.mission_ids := by
  unfold extractLatestUnoptimizedPose
  split <;> rfl

theorem extractLatest_anchor_some (i : RobotMissionInformation)
    (d : MissionData) (t : Int) (v : Transformation) :
    (alookup i.T_M_B_submaps_input t = some v →
      alookup (extractLatestUnoptimizedPose i d).T_M_B_submaps_input t =
        some v) ∧
    (alookup i.T_G_M_submaps_input t = some v →
      alookup (extractLatestUnoptimizedPose i d).T_G_M_submaps_input t =
        some v) := by
  unfold extractLatestUnoptimizedPose
  split
  · exact ⟨fun h => h, fun h => h⟩
  · exact ⟨fun h => alookup_insertAnchor_of_some _ _ _ _ _ h,
      fun h => alookup_insertAnchor_of_some _ _ _ _ _ h⟩

theorem extractLatest_keys (i : RobotMissionInformation) (d : MissionData)
    (h : AnchorKeysAgree i) :
    AnchorKeysAgree (extractLatestUnoptimizedPose i d) := by
  unfold extractLatestUnoptimizedPose
  split
  · exact h
  · next v heq =>
    show (insertAnchorIfAbsent i.T_M_B_submaps_input v.timestamp_ns
        v.T_M_B).map (fun p => p.1) =
      (insertAnchorIfAbsent i.T_G_M_submaps_input v.timestamp_ns
        v.T_G_M).map (fun p => p.1)
    rw [insertAnchor_keys, insertAnchor_keys,
      alookup_isSome_congr _ _ h v.timestamp_ns]
    by_cases hs : (alookup i.T_G_M_submaps_input v.timestamp_ns).isSome
    · rw [if_pos hs, if_pos hs]
      exact h
    · rw [if_neg hs, if_neg hs, h]

theorem loadAndProcessSubmap_reg_last (s : ServerState)
    (robot path : String) :
    (loadAndProcessSubmap s robot path).2.robot_to_mission_id_map =
      s.robot_to_mission_id_map ∧
    (loadAndProcessSubmap s robot path).2.last_ingested = s.last_ingested := by
  unfold loadAndProcessSubmap
  dsimp only
  split <;> exact ⟨rfl, rfl⟩

theorem deleteMission_reg_last (s : ServerState) (pid : String) :
    (deleteMission s pid).2.2.robot_to_mission_id_map =
      s.robot_to_mission_id_map ∧
    (deleteMission s pid).2.2.last_ingested = s.last_ingested := by
  unfold deleteMission
  split
  · exact ⟨rfl, rfl⟩
  · split <;> exact ⟨rfl, rfl⟩

theorem deleteAllRobotMissions_reg_last (s : ServerState) (robot : String) :
    (deleteAllRobotMissions s robot).2.robot_to_mission_id_map =
      s.robot_to_mission_id_map ∧
    (deleteAllRobotMissions s robot).2.last_ingested = s.last_ingested := by
  unfold deleteAllRobotMissions
  split <;> exact ⟨rfl, rfl⟩

theorem runOneMergeIteration_reg (s : ServerState) :
    (runOneMergeIteration s).1.robot_to_mission_id_map =
      s.robot_to_mission_id_map.map (fun p =>
        (p.1, clearBlacklistedInfo s.blacklisted_missions p.2)) := rfl

theorem runOneMergeIteration_last (s : ServerState) :
    (runOneMergeIteration s).1.last_ingested = s.last_ingested := rfl

/-- C8 (counterexample to the claim as stated): the merge iteration
clears blacklisted mission ids from the registry, so with robot `A`'s
most recently ingested mission blacklisted, the front-of-`mission_ids`
part of the registry invariant is not preserved. -/
theorem c8_front_invariant_counterexample :
    FrontInvariant stateC8 ∧
    ¬ FrontInvariant (applyServerOp fsEmpty stateC8 .opMergeIteration) :=
  ⟨by decide, by decide⟩

/-- C8 (amended): every operation preserves key agreement of the two
anchor maps and never rewrites an existing anchor entry; the loader
prepends a new mission id exactly when the ingested submap's mission
differs from the current front, after which the front is that mission;
and the front-of-`mission_ids` condition is preserved by every
operation provided no registry mission is blacklisted (the merge
iteration clears blacklisted ids from `mission_ids`). -/
theorem c8_registry_invariant (fs : String → Option MissionData)
    (s : ServerState) :
    (∀ op : ServerOp,
      (∀ p ∈ s.robot_to_mission_id_map, AnchorKeysAgree p.2) →
      ∀ p ∈ (applyServerOp fs s op).robot_to_mission_id_map,
        AnchorKeysAgree p.2) ∧
    (∀ (op : ServerOp) (robot : String) (info : RobotMissionInformation)
        (t : Int) (v : Transformation),
      alookup s.robot_to_mission_id_map robot = some info →
      ∃ info', alookup (applyServerOp fs s op).robot_to_mission_id_map
          robot = some info' ∧
        (alookup info.T_M_B_submaps_input t = some v →
          alookup info'.T_M_B_submaps_input t = some v) ∧
        (alookup info.T_G_M_submaps_input t = some v →
          alookup info'.T_G_M_submaps_input t = some v)) ∧
    (∀ (h : Nat) (rec : SubmapProcess) (data : MissionData),
      s.submap_processing_queue.find?
        (fun r => r.map_hash = h && !r.is_loaded) = some rec →
      fs rec.path = some data →
      missionBlacklisted s.blacklisted_missions data.mission_id = false →
      ((alookup (loadSubmapTask fs s h).robot_to_mission_id_map
          rec.robot_name).bind (fun i => i.mission_ids.head?) =
        some data.mission_id ∧
       alookup (loadSubmapTask fs s h).last_ingested rec.robot_name =
        some data.mission_id ∧
       (∀ info0, alookup s.robot_to_mission_id_map rec.robot_name =
          some info0 →
        ∃ info', alookup (loadSubmapTask fs s h).robot_to_mission_id_map
            rec.robot_name = some info' ∧
          info'.mission_ids =
            (if info0.mission_ids.head? = some data.mission_id
             then info0.mission_ids
             else data.mission_id :: info0.mission_ids)))) ∧
    (∀ op : ServerOp, FrontInvariant s → RegistryMissionsNotBlacklisted s →
      FrontInvariant (applyServerOp fs s op)) := by
  refine ⟨?_, ?_, ?_, ?_⟩
  · intro op hA
    cases op with
    | opLoadAndProcessSubmap robot' path' =>
      intro p hp
      rw [show (applyServerOp fs s
        (ServerOp.opLoadAndProcessSubmap robot' path')) =
        (loadAndProcessSubmap s robot' path').2 from rfl,
        (loadAndProcessSubmap_reg_last s robot' path').1] at hp
      exact hA p hp
    | opLoaderTask h =>
      intro p hp
      have hp2 : p ∈ (loadSubmapTask fs s h).robot_to_mission_id_map := hp
      revert hp2
      unfold loadSubmapTask
      split
      · intro hp2
        exact hA p hp2
      · split
        · intro hp2
          exact hA p hp2
        · split
          · intro hp2
            exact hA p hp2
          · rename_i xa rec0 hrec0 xb data0 hdata0 hbl0
            intro hp2
            rcases mem_aset_cases _ _ _ p hp2 with rfl | hpold
            · show AnchorKeysAgree (extractLatestUnoptimizedPose
                (prependMissionIfNew ((alookup s.robot_to_mission_id_map
                  rec0.robot_name).getD {}) data0.mission_id) data0)
              apply extractLatest_keys
              have hpre := prependMissionIfNew_anchors
                ((alookup s.robot_to_mission_id_map
                  rec0.robot_name).getD {}) data0.mission_id
              show (prependMissionIfNew _ _).T_M_B_submaps_input.map
                  (fun p => p.1) =
                (prependMissionIfNew _ _).T_G_M_submaps_input.map
                  (fun p => p.1)
              rw [hpre.1, hpre.2]
              rcases hr0 : alookup s.robot_to_mission_id_map
                  rec0.robot_name with _ | i0
              · rfl
              · exact hA (rec0.robot_name, i0) (alookup_mem _ _ _ hr0)
            · exact hA p hpold
    | opProcessTask h =>
      intro p hp
      exact hA p hp
    | opMergeIteration =>
      intro p hp
      rw [show (applyServerOp fs s ServerOp.opMergeIteration) =
        (runOneMergeIteration s).1 from rfl,
        runOneMergeIteration_reg] at hp
      simp only [List.mem_map] at hp
      obtain ⟨q, hq, hqe⟩ := hp
      subst hqe
      exact hA q hq
    | opDeleteMission pid =>
      intro p hp
      rw [show (applyServerOp fs s (ServerOp.opDeleteMission pid)) =
        (deleteMission s pid).2.2 from rfl,
        (deleteMission_reg_last s pid).1] at hp
      exact hA p hp
    | opDeleteAllRobotMissions robot' =>
      intro p hp
      rw [show (applyServerOp fs s
        (ServerOp.opDeleteAllRobotMissions robot')) =
        (deleteAllRobotMissions s robot').2 from rfl,
        (deleteAllRobotMissions_reg_last s robot').1] at hp
      exact hA p hp
    | opMapLookup robot' sensor t p0 =>
      intro p hp
      exact hA p hp
  · intro op robot info t v hinfo
    cases op with
    | opLoadAndProcessSubmap robot' path' =>
      refine ⟨info, ?_, fun x => x, fun x => x⟩
      rw [show (applyServerOp fs s
        (ServerOp.opLoadAndProcessSubmap robot' path')) =
        (loadAndProcessSubmap s robot' path').2 from rfl,
        (loadAndProcessSubmap_reg_last s robot' path').1]
      exact hinfo
    | opLoaderTask h =>
      show ∃ info', alookup (loadSubmapTask fs s h).robot_to_mission_id_map
          robot = some info' ∧ _
      unfold loadSubmapTask
      split
      · exact ⟨info, hinfo, fun x => x, fun x => x⟩
      · split
        · exact ⟨info, hinfo, fun x => x, fun x => x⟩
        · split
          · exact ⟨info, hinfo, fun x => x, fun x => x⟩
          · rename_i xa rec0 hrec0 xb data0 hdata0 hbl0
            by_cases hrr : rec0.robot_name = robot
            · subst hrr
              have hgetD : (alookup s.robot_to_mission_id_map
                  rec0.robot_name).getD {} = info := by
                rw [hinfo]
                rfl
              refine ⟨_, alookup_aset_self _ _ _, ?_, ?_⟩
              · intro hv
                rw [hgetD]
                apply (extractLatest_anchor_some _ data0 t v).1
                rw [(prependMissionIfNew_anchors info data0.mission_id).1]
                exact hv
              · intro hv
                rw [hgetD]
                apply (extractLatest_anchor_some _ data0 t v).2
                rw [(prependMissionIfNew_anchors info data0.mission_id).2]
                exact hv
            · refine ⟨info, ?_, fun x => x, fun x => x⟩
              rw [alookup_aset_ne _ _ _ _ hrr]
              exact hinfo
    | opProcessTask h =>
      exact ⟨info, hinfo, fun x => x, fun x => x⟩
    | opMergeIteration =>
      refine ⟨clearBlacklistedInfo s.blacklisted_missions info, ?_,
        fun x => x, fun x => x⟩
      rw [show (applyServerOp fs s ServerOp.opMergeIteration) =
        (runOneMergeIteration s).1 from rfl,
        runOneMergeIteration_reg, alookup_map_value, hinfo]
      rfl
    | opDeleteMission pid =>
      refine ⟨info, ?_, fun x => x, fun x => x⟩
      rw [show (applyServerOp fs s (ServerOp.opDeleteMission pid)) =
        (deleteMission s pid).2.2 from rfl,
        (deleteMission_reg_last s pid).1]
      exact hinfo
    | opDeleteAllRobotMissions robot' =>
      refine ⟨info, ?_, fun x => x, fun x => x⟩
      rw [show (applyServerOp fs s
        (ServerOp.opDeleteAllRobotMissions robot')) =
        (deleteAllRobotMissions s robot').2 from rfl,
        (deleteAllRobotMissions_reg_last s robot').1]
      exact hinfo
    | opMapLookup robot' sensor t0 p0 =>
      exact ⟨info, hinfo, fun x => x, fun x => x⟩
  · intro h rec data hfind hfs hbl
    have hbl' : ¬ missionBlacklisted s.blacklisted_missions
        data.mission_id = true := by
      rw [hbl]
      exact Bool.false_ne_true
    simp only [loadSubmapTask, hfind, hfs, if_neg hbl']
    refine ⟨?_, ?_, ?_⟩
    · rw [alookup_aset_self]
      rw [Option.some_bind, extractLatest_ids]
      exact prependMissionIfNew_head _ _
    · rw [alookup_aset_self]
    · intro info0 hinfo0
      rw [alookup_aset_self]
      refine ⟨_, rfl, ?_⟩
      rw [extractLatest_ids, prependMissionIfNew_ids, hinfo0]
      rfl
  · intro op hF hR
    cases op with
    | opLoadAndProcessSubmap robot' path' =>
      intro p hp
      have hq := loadAndProcessSubmap_reg_last s robot' path'
      show (alookup (loadAndProcessSubmap s robot'
          path').2.robot_to_mission_id_map p.1).bind
          (fun i => i.mission_ids.head?) =
        alookup (loadAndProcessSubmap s robot' path').2.last_ingested p.1
      rw [hq.1, hq.2]
      rw [show (applyServerOp fs s
        (ServerOp.opLoadAndProcessSubmap robot' path')) =
        (loadAndProcessSubmap s robot' path').2 from rfl, hq.2] at hp
      exact hF p hp
    | opLoaderTask h =>
      intro p hp
      have hp2 : p ∈ (loadSubmapTask fs s h).last_ingested := hp
      revert hp2
      show p ∈ (loadSubmapTask fs s h).last_ingested →
        (alookup (loadSubmapTask fs s h).robot_to_mission_id_map p.1).bind
          (fun i => i.mission_ids.head?) =
        alookup (loadSubmapTask fs s h).last_ingested p.1
      unfold loadSubmapTask
      split
      · intro hp2
        exact hF p hp2
      · split
        · intro hp2
          exact hF p hp2
        · split
          · intro hp2
            exact hF p hp2
          · rename_i xa rec0 hrec0 xb data0 hdata0 hbl0
            intro hp2
            by_cases hpr : p.1 = rec0.robot_name
            · rw [hpr, alookup_aset_self, alookup_aset_self,
                Option.some_bind, extractLatest_ids,
                prependMissionIfNew_head]
            · rw [alookup_aset_ne _ _ _ _ (fun he => hpr he.symm),
                alookup_aset_ne _ _ _ _ (fun he => hpr he.symm)]
              rcases mem_aset_cases _ _ _ p hp2 with rfl | hpold
              · exact absurd rfl hpr
              · exact hF p hpold
    | opProcessTask h =>
      intro p hp
      exact hF p hp
    | opMergeIteration =>
      intro p hp
      rw [show (applyServerOp fs s ServerOp.opMergeIteration) =
        (runOneMergeIteration s).1 from rfl] at hp ⊢
      rw [runOneMergeIteration_last] at hp
      show (alookup (runOneMergeIteration s).1.robot_to_mission_id_map
          p.1).bind (fun i => i.mission_ids.head?) =
        alookup (runOneMergeIteration s).1.last_ingested p.1
      rw [runOneMergeIteration_reg, runOneMergeIteration_last,
        alookup_map_value]
      rcases hri : alookup s.robot_to_mission_id_map p.1 with _ | i
      · have hthis := hF p hp
        rw [hri] at hthis
        simpa using hthis
      · have hfi : i.mission_ids.filter
            (fun m => !missionBlacklisted s.blacklisted_missions m) =
            i.mission_ids := by
          rw [List.filter_eq_self]
          intro a ha
          have hz := hR (p.1, i) (alookup_mem _ _ _ hri) a ha
          rw [hz]
          rfl
        show (clearBlacklistedInfo s.blacklisted_missions
            i).mission_ids.head? = alookup s.last_ingested p.1
        show (i.mission_ids.filter (fun m =>
            !missionBlacklisted s.blacklisted_missions m)).head? =
          alookup s.last_ingested p.1
        rw [hfi]
        have hthis := hF p hp
        rw [hri] at hthis
        simpa using hthis
    | opDeleteMission pid =>
      intro p hp
      have hq := deleteMission_reg_last s pid
      show (alookup (deleteMission s pid).2.2.robot_to_mission_id_map
          p.1).bind (fun i => i.mission_ids.head?) =
        alookup (deleteMission s pid).2.2.last_ingested p.1
      rw [hq.1, hq.2]
      rw [show (applyServerOp fs s (ServerOp.opDeleteMission pid)) =
        (deleteMission s pid).2.2 from rfl, hq.2] at hp
      exact hF p hp
    | opDeleteAllRobotMissions robot' =>
      intro p hp
      have hq := deleteAllRobotMissions_reg_last s robot'
      show (alookup
          (deleteAllRobotMissions s robot').2.robot_to_mission_id_map
          p.1).bind (fun i => i.mission_ids.head?) =
        alookup (deleteAllRobotMissions s robot').2.last_ingested p.1
      rw [hq.1, hq.2]
      rw [show (applyServerOp fs s
        (ServerOp.opDeleteAllRobotMissions robot')) =
        (deleteAllRobotMissions s robot').2 from rfl, hq.2] at hp
      exact hF p hp
    | opMapLookup robot' sensor t0 p0 =>
      intro p hp
      exact hF p hp

/-- Witness for C8 (amended) exercising the hypotheses: on `stateA`
the merge iteration preserves the front invariant since nothing is
blacklisted. -/
theorem c8_registry_invariant_witness :
    FrontInvariant (applyServerOp fsA stateA .opMergeIteration) :=
  (c8_registry_invariant fsA stateA).2.2.2 .opMergeIteration
    (by decide) (by decide)

/-! ## C3: the published pose correction -/

theorem alookup_isSome_of_mem_keys {κ α : Type} [DecidableEq κ]
    (l : List (κ × α)) (k : κ) (h : k ∈ l.map (fun p => p.1)) :
    (alookup l k).isSome := by
  induction l with
  | nil => cases h
  | cons p rest ih =>
    rw [alookup]
    by_cases hp : p.1 = k
    · rw [if_pos hp]
      rfl
    · rw [if_neg hp]
      rcases List.mem_cons.mp h with heq | hmem
    -- heq : k = p.1 contradicts hp
      · exact absurd heq.symm hp
      · exact ih hmem

theorem mem_commonTimestamps (verts : List SubmapVertex)
    (anchors : List (Int × Transformation)) (t : Int) :
    t ∈ commonTimestamps verts anchors ↔
      t ∈ anchors.map (fun p => p.1) ∧
      (verts.any (fun v => v.timestamp_ns = t)) = true := by
  unfold commonTimestamps
  rw [List.mem_filter]

/-- C3: every emitted pose correction of a merge iteration's publish
step is computed at the most recent timestamp present both in the
merged map and in the robot's `T_M_B_submaps_input`; its transform
fields are the stored input transforms at that timestamp and the
optimized body pose of the merged-map vertex there; and the correction
itself is `(T_G_M_old * T_M_B_old)⁻¹ * T_G_B_new`.  A robot with a
common timestamp is never skipped, and its correction is emitted to
the callback for every robot in the new-merged-data list. -/
theorem c3_pose_correction (s : ServerState) (robots : List String)
    (r : String) (info : RobotMissionInformation)
    (hreg : alookup s.robot_to_mission_id_map r = some info)
    (hkeys : AnchorKeysAgree info) :
    (∀ c, correctionForRobot s r = some c →
      c.robot_name = r ∧
      c.timestamp_ns ∈ commonTimestamps (mergedMapVertices s)
        info.T_M_B_submaps_input ∧
      (∀ t' ∈ commonTimestamps (mergedMapVertices s)
        info.T_M_B_submaps_input, t' ≤ c.timestamp_ns) ∧
      alookup info.T_M_B_submaps_input c.timestamp_ns = some c.T_M_B_old ∧
      alookup info.T_G_M_submaps_input c.timestamp_ns = some c.T_G_M_old ∧
      (∃ v ∈ mergedMapVertices s, v.timestamp_ns = c.timestamp_ns ∧
        v.T_G_B = c.T_G_B_new) ∧
      c.T_B_old_B_new = (c.T_G_M_old * c.T_M_B_old)⁻¹ * c.T_G_B_new) ∧
    (commonTimestamps (mergedMapVertices s) info.T_M_B_submaps_input ≠ [] →
      (correctionForRobot s r).isSome) ∧
    (∀ c, r ∈ robots → correctionForRobot s r = some c →
      c ∈ publishMostRecentVertexPoseAndCorrection s robots) := by
  refine ⟨?_, ?_, ?_⟩
  · intro c hc
    simp only [correctionForRobot, hreg] at hc
    rcases hmax : maxTimestamp (commonTimestamps (mergedMapVertices s)
        info.T_M_B_submaps_input) with _ | tStar
    · simp only [hmax] at hc
      cases hc
    · rcases htmb : alookup info.T_M_B_submaps_input tStar with _ | tmb <;>
        rcases htgm : alookup info.T_G_M_submaps_input tStar with _ | tgm <;>
          rcases hv : (mergedMapVertices s).find?
              (fun v => v.timestamp_ns = tStar) with _ | v <;>
            simp only [hmax, htmb, htgm, hv] at hc <;>
              cases hc
      refine ⟨rfl, maxTimestamp_mem _ _ hmax,
        fun t' ht' => le_maxTimestamp _ t' tStar ht' hmax,
        htmb, htgm, ?_, rfl⟩
      refine ⟨v, List.mem_of_find?_eq_some hv, ?_, rfl⟩
      have hps := List.find?_some hv
      simpa using hps
  · intro hne
    have hmax := maxTimestamp_isSome_of_ne_nil _ hne
    obtain ⟨tStar, htS⟩ := Option.isSome_iff_exists.mp hmax
    have hmem := maxTimestamp_mem _ _ htS
    rw [mem_commonTimestamps] at hmem
    have htmb : (alookup info.T_M_B_submaps_input tStar).isSome :=
      alookup_isSome_of_mem_keys _ _ hmem.1
    have htgm : (alookup info.T_G_M_submaps_input tStar).isSome := by
      rw [← alookup_isSome_congr _ _ hkeys tStar]
      exact htmb
    have hfind : ((mergedMapVertices s).find?
        (fun v => v.timestamp_ns = tStar)).isSome := by
      rw [List.find?_isSome]
      rcases List.any_eq_true.mp hmem.2 with ⟨v, hv, hvt⟩
      exact ⟨v, hv, hvt⟩
    obtain ⟨tmb, htmb'⟩ := Option.isSome_iff_exists.mp htmb
    obtain ⟨tgm, htgm'⟩ := Option.isSome_iff_exists.mp htgm
    obtain ⟨v, hv'⟩ := Option.isSome_iff_exists.mp hfind
    simp only [correctionForRobot, hreg, htS, htmb', htgm', hv']
    rfl
  · intro c hr hc
    unfold publishMostRecentVertexPoseAndCorrection
    exact List.mem_filterMap.mpr ⟨r, hr, hc⟩

/-- Witness for C3 at the concrete merged state: robot `A` resolves
with agreeing anchor keys. -/
theorem c3_pose_correction_witness :
    (∀ c, correctionForRobot stateAMerged "A" = some c →
      c.robot_name = "A" ∧
      c.timestamp_ns ∈ commonTimestamps (mergedMapVertices stateAMerged)
        infoA.T_M_B_submaps_input ∧
      (∀ t' ∈ commonTimestamps (mergedMapVertices stateAMerged)
        infoA.T_M_B_submaps_input, t' ≤ c.timestamp_ns) ∧
      alookup infoA.T_M_B_submaps_input c.timestamp_ns =
        some c.T_M_B_old ∧
      alookup infoA.T_G_M_submaps_input c.timestamp_ns =
        some c.T_G_M_old ∧
      (∃ v ∈ mergedMapVertices stateAMerged,
        v.timestamp_ns = c.timestamp_ns ∧ v.T_G_B = c.T_G_B_new) ∧
      c.T_B_old_B_new = (c.T_G_M_old * c.T_M_B_old)⁻¹ * c.T_G_B_new) ∧
    (commonTimestamps (mergedMapVertices stateAMerged)
        infoA.T_M_B_submaps_input ≠ [] →
      (correctionForRobot stateAMerged "A").isSome) ∧
    (∀ c, "A" ∈ ["A"] → correctionForRobot stateAMerged "A" = some c →
      c ∈ publishMostRecentVertexPoseAndCorrection stateAMerged ["A"]) :=
  c3_pose_correction stateAMerged ["A"] "A" infoA (by decide) (by decide)

/-! ## C1: the append step consumes the processed prefix -/

theorem isSubmapBlacklisted_congr (store1 store2 : List (String × VIMap))
    (bl : List (MissionId × String)) (k : String)
    (h : alookup store1 k = alookup store2 k) :
    isSubmapBlacklisted store1 bl k = isSubmapBlacklisted store2 bl k := by
  unfold isSubmapBlacklisted
  rw [h]

theorem alookup_transfer_ne (store : List (String × VIMap)) (key k : String)
    (hm : k ≠ kMergedMapKey) (hk : k ≠ key) :
    alookup (transferSubmapIntoMergedMap store key) k = alookup store k := by
  unfold transferSubmapIntoMergedMap
  rcases hs : alookup store key with _ | sub
  · rfl
  · rw [alookup_aerase_ne _ _ _ (fun he => hk he.symm),
      alookup_aset_ne _ _ _ _ (fun he => hm he.symm)]

theorem alookup_transfer_merged (store : List (String × VIMap))
    (key : String) (sub : VIMap) (hkm : key ≠ kMergedMapKey)
    (hs : alookup store key = some sub) :
    alookup (transferSubmapIntoMergedMap store key) kMergedMapKey =
      some (mergeVIMapInto ((alookup store kMergedMapKey).getD []) sub) := by
  unfold transferSubmapIntoMergedMap
  rw [hs]
  rw [alookup_aerase_ne _ _ _ hkm, alookup_aset_self]

theorem appendLoop_characterization (bl : List (MissionId × String))
    (store : List (String × VIMap)) (q : List SubmapProcess)
    (H1 : ∀ r ∈ processedPrefix q, r.map_key ≠ kMergedMapKey)
    (H2 : ((processedPrefix q).map (fun r => r.map_key)).Nodup)
    (H3 : ∀ r ∈ processedPrefix q, (alookup store r.map_key).isSome) :
    (appendLoop bl store q).2.1 =
      q.dropWhile (fun r => r.is_processed) ∧
    (appendLoop bl store q).2.2 =
      (transferredRecords bl store q).map
        (fun r => { r with is_merged := true }) ∧
    alookup (appendLoop bl store q).1 kMergedMapKey =
      (if transferredRecords bl store q = []
       then alookup store kMergedMapKey
       else some (List.foldl mergeVIMapInto
         ((alookup store kMergedMapKey).getD [])
         ((transferredRecords bl store q).filterMap
           (fun r => alookup store r.map_key)))) := by
  induction q generalizing store with
  | nil =>
    refine ⟨rfl, rfl, ?_⟩
    rw [if_pos (show transferredRecords bl store ([] : List SubmapProcess)
      = [] from rfl)]
    rfl
  | cons rec rest ih =>
    by_cases hp : rec.is_processed
    · have hpre : processedPrefix (rec :: rest) =
          rec :: processedPrefix rest := by
        unfold processedPrefix
        rw [List.takeWhile_cons_of_pos hp]
      have hrecMem : rec ∈ processedPrefix (rec :: rest) := by
        rw [hpre]
        exact List.mem_cons_self _ _
      have H1rec := H1 rec hrecMem
      have H3rec := H3 rec hrecMem
      have H1' : ∀ r ∈ processedPrefix rest, r.map_key ≠ kMergedMapKey :=
        fun r hr => H1 r (by rw [hpre]; exact List.mem_cons_of_mem _ hr)
      have H2' : ((processedPrefix rest).map (fun r => r.map_key)).Nodup := by
        have h2 := H2
        rw [hpre, List.map_cons] at h2
        exact (List.nodup_cons.mp h2).2
      have hknotin : rec.map_key ∉
          (processedPrefix rest).map (fun r => r.map_key) := by
        have h2 := H2
        rw [hpre, List.map_cons] at h2
        exact (List.nodup_cons.mp h2).1
      obtain ⟨subRec, hsubRec⟩ := Option.isSome_iff_exists.mp H3rec
      have hdrop : (rec :: rest).dropWhile (fun r => r.is_processed) =
          rest.dropWhile (fun r => r.is_processed) :=
        List.dropWhile_cons_of_pos hp
      by_cases hb : isSubmapBlacklisted store bl rec.map_key
      · have happ : appendLoop bl store (rec :: rest) =
            appendLoop bl (aerase store rec.map_key) rest := by
          rw [appendLoop, if_pos hp, if_pos hb]
        have hstab : ∀ r ∈ processedPrefix rest,
            alookup (aerase store rec.map_key) r.map_key =
              alookup store r.map_key := by
          intro r hr
          apply alookup_aerase_ne
          intro he
          exact hknotin (by rw [he]; exact List.mem_map.mpr ⟨r, hr, rfl⟩)
        have H3' : ∀ r ∈ processedPrefix rest,
            (alookup (aerase store rec.map_key) r.map_key).isSome := by
          intro r hr
          rw [hstab r hr]
          exact H3 r (by rw [hpre]; exact List.mem_cons_of_mem _ hr)
        obtain ⟨ihA, ihB, ihC⟩ := ih (aerase store rec.map_key) H1' H2' H3'
        have htr : transferredRecords bl (aerase store rec.map_key) rest =
            transferredRecords bl store rest := by
          unfold transferredRecords
          apply List.filter_congr
          intro r hr
          rw [isSubmapBlacklisted_congr _ store bl r.map_key (hstab r hr)]
        have htrc : transferredRecords bl store (rec :: rest) =
            transferredRecords bl store rest := by
          unfold transferredRecords
          rw [hpre]
          apply List.filter_cons_of_neg
          simp [hb]
        have hmg : alookup (aerase store rec.map_key) kMergedMapKey =
            alookup store kMergedMapKey :=
          alookup_aerase_ne _ _ _ H1rec
        have hfm : (transferredRecords bl store rest).filterMap
              (fun r => alookup (aerase store rec.map_key) r.map_key) =
            (transferredRecords bl store rest).filterMap
              (fun r => alookup store r.map_key) := by
          apply List.filterMap_congr
          intro r hr
          exact hstab r (List.mem_of_mem_filter hr)
        refine ⟨?_, ?_, ?_⟩
        · rw [happ, ihA, hdrop]
        · rw [happ, ihB, htr, htrc]
        · rw [happ, ihC, htr, hmg, hfm, htrc]
      · have happ : appendLoop bl store (rec :: rest) =
            ((appendLoop bl (transferSubmapIntoMergedMap store
                rec.map_key) rest).1,
             (appendLoop bl (transferSubmapIntoMergedMap store
                rec.map_key) rest).2.1,
             { rec with is_merged := true } ::
               (appendLoop bl (transferSubmapIntoMergedMap store
                 rec.map_key) rest).2.2) := by
          rw [appendLoop, if_pos hp, if_neg hb]
        have hstab : ∀ r ∈ processedPrefix rest,
            alookup (transferSubmapIntoMergedMap store rec.map_key)
              r.map_key = alookup store r.map_key := by
          intro r hr
          apply alookup_transfer_ne
          · exact H1' r hr
          · intro he
            exact hknotin (by rw [← he]; exact List.mem_map.mpr ⟨r, hr, rfl⟩)
        have H3' : ∀ r ∈ processedPrefix rest,
            (alookup (transferSubmapIntoMergedMap store rec.map_key)
              r.map_key).isSome := by
          intro r hr
          rw [hstab r hr]
          exact H3 r (by rw [hpre]; exact List.mem_cons_of_mem _ hr)
        obtain ⟨ihA, ihB, ihC⟩ :=
          ih (transferSubmapIntoMergedMap store rec.map_key) H1' H2' H3'
        have htr : transferredRecords bl
              (transferSubmapIntoMergedMap store rec.map_key) rest =
            transferredRecords bl store rest := by
          unfold transferredRecords
          apply List.filter_congr
          intro r hr
          rw [isSubmapBlacklisted_congr _ store bl r.map_key (hstab r hr)]
        have htrc : transferredRecords bl store (rec :: rest) =
            rec :: transferredRecords bl store rest := by
          unfold transferredRecords
          rw [hpre]
          apply List.filter_cons_of_pos
          simp [Bool.not_eq_true] at hb
          simp [hb]
        have hmg := alookup_transfer_merged store rec.map_key subRec
          H1rec hsubRec
        have hfm : (transferredRecords bl store rest).filterMap
              (fun r => alookup (transferSubmapIntoMergedMap store
                rec.map_key) r.map_key) =
            (transferredRecords bl store rest).filterMap
              (fun r => alookup store r.map_key) := by
          apply List.filterMap_congr
          intro r hr
          exact hstab r (List.mem_of_mem_filter hr)
        refine ⟨?_, ?_, ?_⟩
        · rw [happ]
          show (appendLoop bl (transferSubmapIntoMergedMap store
            rec.map_key) rest).2.1 = _
          rw [ihA, hdrop]
        · rw [happ]
          show { rec with is_merged := true } ::
              (appendLoop bl (transferSubmapIntoMergedMap store
                rec.map_key) rest).2.2 = _
          rw [htrc, List.map_cons, ihB, htr]
        · rw [happ]
          show alookup (appendLoop bl (transferSubmapIntoMergedMap store
            rec.map_key) rest).1 kMergedMapKey = _
          rw [ihC, htr, hmg, hfm, htrc,
            if_neg (List.cons_ne_nil rec (transferredRecords bl store rest)),
            @List.filterMap_cons_some SubmapProcess VIMap
              (fun r => alookup store r.map_key) rec
              (transferredRecords bl store rest) subRec hsubRec,
            List.foldl_cons]
          by_cases hX : transferredRecords bl store rest = []
          · rw [if_pos hX, hX, List.filterMap_nil, List.foldl_nil]
          · rw [if_neg hX, Option.getD_some]
    · have hpre : processedPrefix (rec :: rest) = [] := by
        unfold processedPrefix
        rw [List.takeWhile_cons_of_neg hp]
      have happ : appendLoop bl store (rec :: rest) =
          (store, rec :: rest, []) := by
        rw [appendLoop, if_neg hp]
      have htrc : transferredRecords bl store (rec :: rest) = [] := by
        unfold transferredRecords
        rw [hpre]
        rfl
      refine ⟨?_, ?_, ?_⟩
      · rw [happ, List.dropWhile_cons_of_neg hp]
      · rw [happ, htrc]
        rfl
      · rw [happ, htrc]
        rw [if_pos (show ([] : List SubmapProcess) = [] from rfl)]

/-- C1: the append step of the merge loop scans from the head of the
queue, consumes exactly the maximal prefix of processed records, popping
them all, transfers those with a non-blacklisted mission into the
merged map in queue order (creating it if absent) while marking them
`is_merged`, discards the blacklisted ones, leaves every record at or
past the first non-processed entry in place, and thereby keeps each
robot's submaps in submission order. -/
theorem c1_append_available_submaps (s : ServerState)
    (H1 : ∀ r ∈ processedPrefix s.submap_processing_queue,
      r.map_key ≠ kMergedMapKey)
    (H2 : ((processedPrefix s.submap_processing_queue).map
      (fun r => r.map_key)).Nodup)
    (H3 : ∀ r ∈ processedPrefix s.submap_processing_queue,
      (alookup s.map_store r.map_key).isSome) :
    (appendAvailableSubmaps s).1.submap_processing_queue =
      s.submap_processing_queue.dropWhile (fun r => r.is_processed) ∧
    (appendAvailableSubmaps s).2 =
      (transferredRecords s.blacklisted_missions s.map_store
        s.submap_processing_queue).map
          (fun r => { r with is_merged := true }) ∧
    alookup (appendAvailableSubmaps s).1.map_store kMergedMapKey =
      (if transferredRecords s.blacklisted_missions s.map_store
          s.submap_processing_queue = []
       then alookup s.map_store kMergedMapKey
       else some (List.foldl mergeVIMapInto
         ((alookup s.map_store kMergedMapKey).getD [])
         ((transferredRecords s.blacklisted_missions s.map_store
           s.submap_processing_queue).filterMap
             (fun r => alookup s.map_store r.map_key)))) ∧
    (∀ robot, List.Sublist
      ((((appendAvailableSubmaps s).2).filter
        (fun r => r.robot_name = robot)).map (fun r => r.map_hash))
      ((s.submap_processing_queue.filter
        (fun r => r.robot_name = robot)).map (fun r => r.map_hash))) := by
  obtain ⟨hA, hB, hC⟩ := appendLoop_characterization
    s.blacklisted_missions s.map_store s.submap_processing_queue H1 H2 H3
  refine ⟨hA, hB, hC, ?_⟩
  intro robot
  show List.Sublist
    ((((appendLoop s.blacklisted_missions s.map_store
      s.submap_processing_queue).2.2).filter
        (fun r => r.robot_name = robot)).map (fun r => r.map_hash))
    ((s.submap_processing_queue.filter
      (fun r => r.robot_name = robot)).map (fun r => r.map_hash))
  rw [hB]
  have hsub : List.Sublist (transferredRecords s.blacklisted_missions
      s.map_store s.submap_processing_queue) s.submap_processing_queue :=
    (List.filter_sublist _).trans (List.takeWhile_sublist _)
  have hmapeq : ((transferredRecords s.blacklisted_missions s.map_store
        s.submap_processing_queue).map
          (fun r => { r with is_merged := true })).filter
        (fun r => r.robot_name = robot) =
      ((transferredRecords s.blacklisted_missions s.map_store
        s.submap_processing_queue).filter
          (fun r => r.robot_name = robot)).map
        (fun r => { r with is_merged := true }) := by
    rw [List.filter_map]
    rfl
  rw [hmapeq, List.map_map]
  have hfl : List.Sublist
      ((transferredRecords s.blacklisted_missions s.map_store
        s.submap_processing_queue).filter (fun r => r.robot_name = robot))
      (s.submap_processing_queue.filter (fun r => r.robot_name = robot)) :=
    List.Sublist.filter _ hsub
  simpa using hfl.map (fun r => r.map_hash)

/-- Witness for C1 on the five-record queue: two transfers, one
discard, two records left in place. -/
theorem c1_append_available_submaps_witness :
    (appendAvailableSubmaps stateC1).1.submap_processing_queue =
      stateC1.submap_processing_queue.dropWhile (fun r => r.is_processed) ∧
    (appendAvailableSubmaps stateC1).2 =
      (transferredRecords stateC1.blacklisted_missions stateC1.map_store
        stateC1.submap_processing_queue).map
          (fun r => { r with is_merged := true }) ∧
    alookup (appendAvailableSubmaps stateC1).1.map_store kMergedMapKey =
      (if transferredRecords stateC1.blacklisted_missions stateC1.map_store
          stateC1.submap_processing_queue = []
       then alookup stateC1.map_store kMergedMapKey
       else some (List.foldl mergeVIMapInto
         ((alookup stateC1.map_store kMergedMapKey).getD [])
         ((transferredRecords stateC1.blacklisted_missions
           stateC1.map_store stateC1.submap_processing_queue).filterMap
             (fun r => alookup stateC1.map_store r.map_key)))) ∧
    (∀ robot, List.Sublist
      ((((appendAvailableSubmaps stateC1).2).filter
        (fun r => r.robot_name = robot)).map (fun r => r.map_hash))
      ((stateC1.submap_processing_queue.filter
        (fun r => r.robot_name = robot)).map (fun r => r.map_hash))) :=
  c1_append_available_submaps stateC1 (by decide) (by decide) (by decide)

end MaplabServer
